import Mathlib

/-!
Verification of the device-to-output matching and assignment resolver of
`src/backends/meta-input-mapper.c` (the mutter input mapper).

The C code is shallowly embedded: GLib strings become `String`/`List Char`,
`MetaMonitor` / `ClutterInputDevice` become structures identified by numeric
ids (standing for the C pointers), the two hash tables of `MetaInputMapper`
become association lists kept in insertion order, and the doubles used by
the size heuristic become exact rationals.  Signal emissions are recorded in
an event trace.  Every definition follows the corresponding C function,
whose name it keeps.
-/

/-- Device classes (the subset of `ClutterInputDeviceType` the mapper
distinguishes in `mapper_input_info_get_caps` and friends). -/
inductive DeviceType where
  | touchscreen
  | tablet
  | pen
  | eraser
  | cursor
  | pad
  | other
deriving DecidableEq, Repr

/-- Capability bitmask of a device class, from `mapper_input_info_get_caps`:
TOUCH = 1<<0, STYLUS = 1<<1 (tablet and pen), ERASER = 1<<2, PAD = 1<<3,
CURSOR = 1<<4; any other class yields 0. -/
def mapper_input_info_get_caps : DeviceType → Nat
  | .touchscreen => 1
  | .tablet => 2
  | .pen => 2
  | .eraser => 4
  | .cursor => 16
  | .pad => 8
  | .other => 0

/-- Match criteria, from the `MetaOutputMatchType` enum; the enum value is
the bit position used in a score. -/
inductive MetaOutputMatchType where
  | edidVendor
  | edidPartial
  | edidFull
  | size
  | isBuiltin
  | config
deriving DecidableEq, Repr

/-- Bit position of a match type (its position in the C enum). -/
def matchTypeBit : MetaOutputMatchType → Nat
  | .edidVendor => 0
  | .edidPartial => 1
  | .edidFull => 2
  | .size => 3
  | .isBuiltin => 4
  | .config => 5

/-- A monitor as the mapper sees it: identity (standing for the C pointer),
EDID vendor/product/serial strings and physical dimensions in mm
(`meta_monitor_get_physical_dimensions` returns ints). -/
structure Monitor where
  id : Nat
  vendor : String
  product : String
  serial : String
  widthMM : Int
  heightMM : Int
deriving DecidableEq, Repr

/-- The monitor-manager data the mapper consumes: the monitor list (in
enumeration order), the ids of the logical monitors (the keys over which
`output_devices` is rebuilt; one logical monitor per monitor in this
embedding), and the laptop panel, if any, given by monitor id. -/
structure MonitorManager where
  monitors : List Monitor
  logicalMonitors : List Nat
  laptopPanel : Option Nat
deriving DecidableEq, Repr

/-- An input device: identity (standing for the C pointer), class, name,
optional physical size in mm (the udev lookup result; `none` when the
lookup fails), the integration flags computed at the top of
`guess_candidates` (`integrated` defaults to true, `builtin` to false;
libwacom may change them for non-touchscreens), and the `output` setting
of its `GSettings` (a string vector). -/
structure InputDevice where
  id : Nat
  dtype : DeviceType
  name : String
  physSize : Option (ℚ × ℚ)
  integrated : Bool
  builtin : Bool
  cfg : List String
deriving DecidableEq, Repr

/-- Does `needle` occur at the start of `hay` (already-lowered char lists)? -/
def beginsWith : List Char → List Char → Bool
  | _, [] => true
  | [], _ :: _ => false
  | c :: cs, d :: ds => c == d && beginsWith cs ds

/-- Substring test on char lists. -/
def hasSub : List Char → List Char → Bool
  | [], needle => beginsWith [] needle
  | c :: cs, needle => beginsWith (c :: cs) needle || hasSub cs needle

/-- ASCII model of `strcasestr`: case-insensitive substring test.  As in C,
an empty needle matches everything. -/
def strcasestr (hay needle : String) : Bool :=
  hasSub (hay.toList.map Char.toLower) (needle.toList.map Char.toLower)

/-- Helper for `g_strsplit`: split a char list at every space, keeping
empty fields. -/
def splitSpaceAux (acc : List Char) : List Char → List (List Char)
  | [] => [acc.reverse]
  | c :: cs =>
    if c == ' ' then acc.reverse :: splitSpaceAux [] cs
    else splitSpaceAux (c :: acc) cs

/-- Model of `g_strsplit (s, " ", -1)`: splitting the empty string yields
an empty vector; otherwise fields between single-space delimiters, empty
fields included. -/
def g_strsplit_space (s : String) : List String :=
  if s.toList = [] then []
  else (splitSpaceAux [] s.toList).map fun cs => ⟨cs⟩

/-- Model of `match_edid`: if the monitor vendor does not occur
(case-insensitively) in the device name the function fails and no EDID
match is produced; otherwise the match type is EDID-full when the whole
product string occurs in the device name, EDID-partial when some
space-split token of the product does, and EDID-vendor otherwise. -/
def match_edid (devName : String) (m : Monitor) : Option MetaOutputMatchType :=
  if strcasestr devName m.vendor = false then none
  else if strcasestr devName m.product then some .edidFull
  else if (g_strsplit_space m.product).any (fun tok => strcasestr devName tok) then
    some .edidPartial
  else some .edidVendor

/-- Model of `match_size` (with `input_device_get_physical_size` inlined as
the `physSize` field): false when no physical size is known; otherwise both
the width and the height ratio of output to input physical size must differ
from 1 by strictly less than `MAX_SIZE_MATCH_DIFF` = 0.05.  The C doubles
are modelled by exact rationals. -/
def match_size (physSize : Option (ℚ × ℚ)) (m : Monitor) : Bool :=
  match physSize with
  | none => false
  | some (iw, ih) =>
    decide (|1 - (m.widthMM : ℚ) / iw| < 5/100) &&
    decide (|1 - (m.heightMM : ℚ) / ih| < 5/100)

/-- Model of `match_builtin`: the monitor is the manager's laptop panel. -/
def match_builtin (mgr : MonitorManager) (m : Monitor) : Bool :=
  mgr.laptopPanel == some m.id

/-- Model of `match_config`.  Returns (match, warned): a vector whose length
is not 3 is rejected with a warning; a vector of three empty strings does
not match; otherwise the three fields must equal the monitor's vendor,
product and serial exactly. -/
def match_config (cfg : List String) (m : Monitor) : Bool × Bool :=
  match cfg with
  | [a, b, c] =>
    if a == "" && b == "" && c == "" then (false, false)
    else (m.vendor == a && m.product == b && m.serial == c, false)
  | _ => (false, true)

/-- Score component contributed by an EDID match result. -/
def edidComponent : Option MetaOutputMatchType → Nat
  | none => 0
  | some t => 1 <<< matchTypeBit t

/-- The score of a (device, monitor) pair, as accumulated in the body of
the monitor loop of `guess_candidates`: the EDID bit (if `match_edid`
succeeds), the size bit (integrated devices passing `match_size`), the
builtin bit (system-integrated devices on the laptop panel) and the config
bit, OR-ed together. -/
def deviceScore (mgr : MonitorManager) (d : InputDevice) (m : Monitor) : Nat :=
  edidComponent (match_edid d.name m) |||
  (if d.integrated && match_size d.physSize m then 1 <<< matchTypeBit .size else 0) |||
  (if d.builtin && match_builtin mgr m then 1 <<< matchTypeBit .isBuiltin else 0) |||
  (if (match_config d.cfg m).1 then 1 <<< matchTypeBit .config else 0)

/-- The comparator `sort_by_score` of the C code, verbatim:
`(int) match1->score - match2->score`.  A negative result makes `match1`
sort before `match2`, so this comparator orders candidates by ascending
score. -/
def sort_by_score (match1 match2 : Nat × Nat) : Int :=
  (match1.2 : Int) - (match2.2 : Int)

/-- Stable insertion of `x` into a list sorted by the comparator `le`
(`le x y` meaning `x` may precede `y`): `x` is placed before the first
element it may precede, hence before later-inserted equal elements. -/
def insertLe (le : α → α → Bool) (x : α) : List α → List α
  | [] => [x]
  | y :: ys => if le x y then x :: y :: ys else y :: insertLe le x ys

/-- Stable sort by comparator `le`, as `g_array_sort` guarantees (GLib's
array sort is stable): earlier elements win ties. -/
def stableSortLe (le : α → α → Bool) (l : List α) : List α :=
  l.foldr (insertLe le) []

/-- The candidate record built per device by the mapping helper
(`DeviceCandidates`): the device's identity and class (standing for the
`MetaMapperInputInfo` pointer), the sorted `matches` array (field `matchArr`; `matches` is a Lean keyword) of
(monitor id, score) pairs, and the recorded `best` score. -/
structure DeviceCandidates where
  devId : Nat
  dtype : DeviceType
  matchArr : List (Nat × Nat)
  best : Nat
deriving DecidableEq, Repr

/-- The raw candidate pass of `guess_candidates`: every monitor is scored
in enumeration order and only pairs with score > 0 are kept. -/
def rawCandidates (mgr : MonitorManager) (d : InputDevice) : List (Nat × Nat) :=
  mgr.monitors.filterMap fun m =>
    let s := deviceScore mgr d m
    if s > 0 then some (m.id, s) else none

/-- Model of `guess_candidates`, returning (matches, best).  When no
monitor scored, a single synthetic candidate with score 0 pointing at the
laptop panel is appended if a panel exists, and `best` is 0.  Otherwise
the matches are sorted with `g_array_sort` under `sort_by_score` (stable,
ascending by score) and `best` is the score of the element at index 0. -/
def guess_candidates (mgr : MonitorManager) (d : InputDevice) : List (Nat × Nat) × Nat :=
  let raw := rawCandidates mgr d
  match raw with
  | [] =>
    match mgr.laptopPanel with
    | some p => ([(p, 0)], 0)
    | none => ([], 0)
  | _ :: _ =>
    let sorted := stableSortLe (fun a b => sort_by_score a b ≤ 0) raw
    (sorted, (sorted.headD (0, 0)).2)

/-- The insertion-position scan of `mapping_helper_add`: `pos` starts at 0
and is set to `i` for every index `i` whose element has `best` strictly
greater than the new device's. -/
def helperPos (maps : List DeviceCandidates) (b : Nat) : Nat :=
  maps.enum.foldl (fun pos p => if p.2.best > b then p.1 else pos) 0

/-- Insertion at an index, as `g_array_insert_val`. -/
def insertAt (l : List α) (n : Nat) (x : α) : List α :=
  l.take n ++ x :: l.drop n

/-- Model of `mapping_helper_add`: compute the device's candidates, then
append when `pos` ran past the end (only possible for an empty array),
otherwise insert at `pos`. -/
def mapping_helper_add (mgr : MonitorManager) (maps : List DeviceCandidates)
    (d : InputDevice) : List DeviceCandidates :=
  let gc := guess_candidates mgr d
  let info : DeviceCandidates := ⟨d.id, d.dtype, gc.1, gc.2⟩
  let pos := helperPos maps info.best
  if pos ≥ maps.length then maps ++ [info] else insertAt maps pos info

/-- A `MetaMapperInputInfo`: the device and its current output binding
(a logical monitor id, or none). -/
structure InputInfo where
  dev : InputDevice
  output : Option Nat
deriving DecidableEq, Repr

/-- A `MetaMapperOutputInfo`: the logical monitor it is keyed by, the
attached input devices (id and class, most recently attached first, as the
C code prepends) and the aggregated capability mask. -/
structure OutputInfo where
  monitor : Nat
  devices : List (Nat × DeviceType)
  attachedCaps : Nat
deriving DecidableEq, Repr

/-- Signals emitted by the mapper.  The numeric payloads (transform matrix
and aspect value) are abstracted to the output the device was mapped to. -/
inductive Event where
  | mapped (devId : Nat) (toOutput : Option Nat)
  | aspect (devId : Nat) (toOutput : Option Nat)
  | enabled (devId : Nat) (isOn : Bool)
deriving DecidableEq, Repr

/-- Power-save modes of the monitor manager. -/
inductive PowerMode where
  | fullOn
  | standby
  | suspend
  | off
deriving DecidableEq, Repr

/-- The whole mapper state: the `input_devices` table (insertion order),
the `output_devices` table, the current monitor-manager data, the current
power-save mode and the trace of emitted signals. -/
structure State where
  inputs : List InputInfo
  outputs : List OutputInfo
  mgr : MonitorManager
  power : PowerMode
  events : List Event
deriving DecidableEq, Repr

/-- Update the binding of the input with id `did`. -/
def setBinding (inputs : List InputInfo) (did : Nat) (out : Option Nat) : List InputInfo :=
  inputs.map fun j => if j.dev.id == did then { j with output := out } else j

/-- Update the output keyed by logical monitor `mid`. -/
def updOutput (outs : List OutputInfo) (mid : Nat) (f : OutputInfo → OutputInfo) :
    List OutputInfo :=
  outs.map fun o => if o.monitor == mid then f o else o

/-- Model of `mapper_input_info_set_output`: when the device is already
bound to the requested output nothing happens at all; otherwise the
binding is updated and the `device-mapped` and `device-aspect-ratio`
signals are emitted in that order. -/
def mapper_input_info_set_output (st : State) (did : Nat) (out : Option Nat) : State :=
  match st.inputs.find? (fun i => i.dev.id == did) with
  | none => st
  | some i =>
    if i.output == out then st
    else
      { st with
        inputs := setBinding st.inputs did out
        events := st.events ++ [Event.mapped did out, Event.aspect did out] }

/-- Model of `mapper_output_info_add_input`: prepend the device to the
output's list, OR its capability into the mask, then set the binding. -/
def mapper_output_info_add_input (st : State) (mid : Nat) (did : Nat)
    (t : DeviceType) : State :=
  let st1 := { st with
    outputs := updOutput st.outputs mid fun o =>
      { o with
        devices := (did, t) :: o.devices
        attachedCaps := o.attachedCaps ||| mapper_input_info_get_caps t } }
  mapper_input_info_set_output st1 did (some mid)

/-- Capability mask of a device list (the recomputation loop of
`mapper_output_info_remove_input`). -/
def orCaps (l : List (Nat × DeviceType)) : Nat :=
  l.foldl (fun a e => a ||| mapper_input_info_get_caps e.2) 0

/-- Model of `mapper_output_info_remove_input`: remove the device from the
output's list, recompute the mask from the remaining devices, and clear
the binding. -/
def mapper_output_info_remove_input (st : State) (mid : Nat) (did : Nat) : State :=
  let st1 := { st with
    outputs := updOutput st.outputs mid fun o =>
      let ds := o.devices.eraseP (fun e => e.1 == did)
      { o with devices := ds, attachedCaps := orCaps ds } }
  mapper_input_info_set_output st1 did none

/-- Model of `mapper_output_info_clear_inputs`: unbind every attached
device (emitting signals for each), then empty the list and zero the
mask. -/
def mapper_output_info_clear_inputs (st : State) (mid : Nat) : State :=
  match st.outputs.find? (fun o => o.monitor == mid) with
  | none => st
  | some o =>
    let st1 := o.devices.foldl (fun s e => mapper_input_info_set_output s e.1 none) st
    { st1 with
      outputs := updOutput st1.outputs mid fun p =>
        { p with devices := [], attachedCaps := 0 } }

/-- One iteration of the outer loop of `mapping_helper_apply`: scan the
device's candidates in array order and bind to the first whose output is
registered and whose capability mask does not yet contain the device's
capability; devices with no eligible candidate are left alone. -/
def applyOne (st : State) (info : DeviceCandidates) : State :=
  let hit := info.matchArr.find? fun c =>
    match st.outputs.find? (fun o => o.monitor == c.1) with
    | none => false
    | some o => o.attachedCaps &&& mapper_input_info_get_caps info.dtype == 0
  match hit with
  | none => st
  | some c => mapper_output_info_add_input st c.1 info.devId info.dtype

/-- Model of `mapping_helper_apply`: process the helper array in order. -/
def mapping_helper_apply (st : State) (maps : List DeviceCandidates) : State :=
  maps.foldl applyOne st

/-- Model of `mapper_recalculate_input`: a single-device batch. -/
def mapper_recalculate_input (st : State) (d : InputDevice) : State :=
  mapping_helper_apply st (mapping_helper_add st.mgr [] d)

/-- Model of `mapper_recalculate_candidates`: every known device is added
to the helper (in table order), then the helper is applied. -/
def mapper_recalculate_candidates (st : State) : State :=
  mapping_helper_apply st
    (st.inputs.foldl (fun maps i => mapping_helper_add st.mgr maps i.dev) [])

/-- Model of `mapper_update_outputs` with the manager's new data as
argument (the signal fires after the manager changed): clear every
existing output, rebuild the output table from the logical monitors, and
recompute every device. -/
def mapper_update_outputs (st : State) (newMgr : MonitorManager) : State :=
  let st1 := { st with mgr := newMgr }
  let st2 := st1.outputs.foldl (fun s o => mapper_output_info_clear_inputs s o.monitor) st1
  let st3 := { st2 with
    outputs := newMgr.logicalMonitors.map fun mid => ⟨mid, [], 0⟩ }
  mapper_recalculate_candidates st3

/-- Model of `meta_input_mapper_add_device`: a no-op for a known device;
otherwise the device is inserted (unbound) and recomputed alone. -/
def meta_input_mapper_add_device (st : State) (d : InputDevice) : State :=
  if st.inputs.any (fun i => i.dev.id == d.id) then st
  else
    let st1 := { st with inputs := st.inputs ++ [⟨d, none⟩] }
    mapper_recalculate_input st1 d

/-- Model of `meta_input_mapper_remove_device`: unknown devices are
ignored; otherwise the binding is cleared first (through its output) and
the device is dropped from the table. -/
def meta_input_mapper_remove_device (st : State) (did : Nat) : State :=
  match st.inputs.find? (fun i => i.dev.id == did) with
  | none => st
  | some i =>
    let st1 :=
      match i.output with
      | some mid => mapper_output_info_remove_input st mid did
      | none => st
    { st1 with inputs := st1.inputs.filter fun j => j.dev.id != did }

/-- Model of `settings_output_changed_cb` together with the settings store
update that triggered it: the device's `output` setting is replaced, then
the device is removed from its output (if bound) and recomputed alone.
Unknown devices are ignored (no settings signal is connected for them). -/
def settings_output_changed (st : State) (did : Nat) (newCfg : List String) : State :=
  match st.inputs.find? (fun i => i.dev.id == did) with
  | none => st
  | some i =>
    let st1 := { st with
      inputs := st.inputs.map fun j =>
        if j.dev.id == did then { j with dev := { j.dev with cfg := newCfg } } else j }
    let st2 :=
      match i.output with
      | some mid => mapper_output_info_remove_input st1 mid did
      | none => st1
    match st2.inputs.find? (fun j => j.dev.id == did) with
    | none => st2
    | some j => mapper_recalculate_input st2 j.dev

/-- Model of `meta_input_mapper_get_logical_monitor_device`: the first
attached device of the given class on the output keyed by `mid`. -/
def meta_input_mapper_get_logical_monitor_device (st : State) (mid : Nat)
    (t : DeviceType) : Option Nat :=
  match st.outputs.find? (fun o => o.monitor == mid) with
  | none => none
  | some o => (o.devices.find? (fun e => e.2 == t)).map (·.1)

/-- Model of `input_mapper_power_save_mode_changed_cb` together with the
mode update that triggered it: if a laptop panel exists and a touchscreen
is attached to its logical monitor, emit `device-enabled` with payload
`new mode = on`. -/
def power_save_mode_changed (st : State) (newMode : PowerMode) : State :=
  let st1 := { st with power := newMode }
  let isOn := newMode == PowerMode.fullOn
  match st1.mgr.laptopPanel with
  | none => st1
  | some p =>
    match meta_input_mapper_get_logical_monitor_device st1 p .touchscreen with
    | none => st1
    | some did => { st1 with events := st1.events ++ [Event.enabled did isOn] }

/-- The freshly constructed mapper: empty tables, no events. -/
def State.start : State :=
  ⟨[], [], ⟨[], [], none⟩, PowerMode.fullOn, []⟩

/-- States reachable through the public operations: device hotplug add and
remove, monitor-topology change (with distinct logical monitors, as
distinct `MetaLogicalMonitor` pointers key the hash table), per-device
configuration change, and power-save mode change. -/
inductive Reachable : State → Prop where
  | start : Reachable State.start
  | add (st : State) (d : InputDevice) :
      Reachable st → Reachable (meta_input_mapper_add_device st d)
  | remove (st : State) (did : Nat) :
      Reachable st → Reachable (meta_input_mapper_remove_device st did)
  | monitors (st : State) (mgr : MonitorManager) :
      mgr.logicalMonitors.Nodup →
      Reachable st → Reachable (mapper_update_outputs st mgr)
  | config (st : State) (did : Nat) (cfg : List String) :
      Reachable st → Reachable (settings_output_changed st did cfg)
  | power (st : State) (pm : PowerMode) :
      Reachable st → Reachable (power_save_mode_changed st pm)

/-! Concrete fixtures used by several claims. -/

/-- Monitor named as in Scenario A, full model string. -/
def mCintiq12WX : Monitor := ⟨1, "WAC", "Cintiq 12WX", "", 0, 0⟩

/-- Monitor whose product only token-matches the Wacom device name. -/
def mCintiq99 : Monitor := ⟨2, "WAC", "Cintiq 99", "", 0, 0⟩

/-- Monitor named as Scenario A's O2, short model string. -/
def mCintiq : Monitor := ⟨2, "WAC", "Cintiq", "", 0, 0⟩

/-- Two monitors scoring 4 and 2 for the Wacom device. -/
def mgrPair42 : MonitorManager := ⟨[mCintiq12WX, mCintiq99], [1, 2], none⟩

/-- The two outputs of Scenario A. -/
def mgrScenA : MonitorManager := ⟨[mCintiq12WX, mCintiq], [1, 2], none⟩

/-- The Scenario A device. -/
def devWacom : InputDevice := ⟨7, .pen, "Wacom Cintiq 12WX", none, true, false, ["", "", ""]⟩

/-- A device matching only the EDID vendor. -/
def devVendorOnly : InputDevice := ⟨8, .touchscreen, "Foo WAC thing", none, true, false, ["", "", ""]⟩

/-- A laptop panel monitor. -/
def panelMon : Monitor := ⟨5, "AAA", "Panel", "", 0, 0⟩

/-- A manager exposing only the laptop panel. -/
def mgrPanel : MonitorManager := ⟨[panelMon], [5], some 5⟩

/-- A touchscreen with no heuristic match anywhere. -/
def devTouch : InputDevice := ⟨9, .touchscreen, "Touch", none, true, false, ["", "", ""]⟩

/-- C1: the claim says a recompute sorts each device's candidate list in
descending score order with the best score on top.  The code's comparator
`sort_by_score` returns `match1->score - match2->score`, which makes
`g_array_sort` produce ASCENDING order, and `info->best` then records the
score at index 0, i.e. the minimum.  At a device scoring 4 on monitor 1
and 2 on monitor 2, the computed candidate list is [(2, 2), (1, 4)] —
ascending, not descending — and the recorded best is 2, not 4.  The code
contradicts its own evident intent (`best`, and `mapping_helper_apply`
binding to the first candidate). -/
theorem C1_candidates_sorted_ascending :
    deviceScore mgrPair42 devWacom mCintiq12WX = 4 ∧
    deviceScore mgrPair42 devWacom mCintiq99 = 2 ∧
    guess_candidates mgrPair42 devWacom = ([(2, 2), (1, 4)], 2) := by
  refine ⟨by decide, by decide, by decide⟩

/-- C2 counterexample: the claim asserts the device scores an EDID-partial
match on O2 (vendor "WAC", product "Cintiq").  In the code, the whole
product string "Cintiq" occurs case-insensitively in "Wacom Cintiq 12WX",
so `match_edid` reports a FULL match on O2 and the partial bit (bit 1) of
the score is not set. -/
theorem C2_counterexample :
    strcasestr devWacom.name mCintiq.product = true ∧
    match_edid devWacom.name mCintiq = some MetaOutputMatchType.edidFull ∧
    (deviceScore mgrScenA devWacom mCintiq).testBit 1 = false := by
  refine ⟨by decide, by decide, by decide⟩

/-- C2 amended: with device "Wacom Cintiq 12WX" and outputs O1 (WAC /
"Cintiq 12WX") and O2 (WAC / "Cintiq"), the recompute scores an EDID-full
match on BOTH outputs (O2's whole product also occurs in the device name),
and the device binds to O1, the first of the two equal-score candidates
in enumeration order. -/
theorem C2_full_match_both_binds_O1 :
    match_edid devWacom.name mCintiq12WX = some MetaOutputMatchType.edidFull ∧
    match_edid devWacom.name mCintiq = some MetaOutputMatchType.edidFull ∧
    (meta_input_mapper_add_device (mapper_update_outputs State.start mgrScenA)
        devWacom).inputs = [⟨devWacom, some 1⟩] := by
  refine ⟨by decide, by decide, by decide⟩

/-- C3: the claim says the batch is processed in descending order of best
score, ties by insertion order.  `mapping_helper_add` computes `pos` as
the index of the LAST element whose best exceeds the new one and inserts
AT that index (before it), so inserting a device with recorded best 2 and
then one with recorded best 1 produces processing order [best 1, best 2] —
ascending, not descending.  The code's own bookkeeping (`best`, the
ordered-insertion scan) shows sorted processing was intended. -/
theorem C3_batch_order_not_descending :
    (mapping_helper_add mgrPair42 [] devWacom).map (fun c => (c.devId, c.best))
      = [(7, 2)] ∧
    (mapping_helper_add mgrPair42 (mapping_helper_add mgrPair42 [] devWacom)
        devVendorOnly).map (fun c => (c.devId, c.best)) = [(8, 1), (7, 2)] := by
  refine ⟨by decide, by decide⟩

/-! Bitmask helper lemmas. -/

theorem and_eq_zero_iff_bits (a b : Nat) :
    a &&& b = 0 ↔ ∀ i, ¬(a.testBit i = true ∧ b.testBit i = true) := by
  constructor
  · intro h i hi
    have hc := congrArg (fun n => n.testBit i) h
    simp only [Nat.testBit_land, Nat.zero_testBit] at hc
    rw [hi.1, hi.2] at hc
    simp at hc
  · intro h
    apply Nat.eq_of_testBit_eq
    intro i
    rw [Nat.testBit_land, Nat.zero_testBit]
    cases ha : a.testBit i with
    | false => simp
    | true =>
      cases hb : b.testBit i with
      | false => simp
      | true => exact absurd ⟨ha, hb⟩ (h i)

theorem and_lor_eq_zero_iff (a b c : Nat) :
    a &&& (b ||| c) = 0 ↔ (a &&& b = 0 ∧ a &&& c = 0) := by
  simp only [and_eq_zero_iff_bits, Nat.testBit_lor]
  constructor
  · intro h
    refine ⟨fun i hi => h i ⟨hi.1, by simp [hi.2]⟩, fun i hi => h i ⟨hi.1, by simp [hi.2]⟩⟩
  · rintro ⟨h1, h2⟩ i ⟨ha, hbc⟩
    simp only [Bool.or_eq_true] at hbc
    rcases hbc with hb | hc
    · exact h1 i ⟨ha, hb⟩
    · exact h2 i ⟨ha, hc⟩

theorem and_zero_comm (a b : Nat) : a &&& b = 0 ↔ b &&& a = 0 := by
  simp only [and_eq_zero_iff_bits]
  constructor <;> intro h i hi <;> exact h i ⟨hi.2, hi.1⟩

theorem and_lor_self (a b : Nat) : a &&& (a ||| b) = a := by
  apply Nat.eq_of_testBit_eq
  intro i
  rw [Nat.testBit_land, Nat.testBit_lor]
  cases a.testBit i <;> simp

theorem and_lor_right_absorb (a b c : Nat) (h : a &&& c = a) : a &&& (b ||| c) = a := by
  apply Nat.eq_of_testBit_eq
  intro i
  have hc := congrArg (fun n => n.testBit i) h
  simp only [Nat.testBit_land] at hc
  rw [Nat.testBit_land, Nat.testBit_lor]
  cases ha : a.testBit i with
  | false => simp
  | true =>
    rw [ha] at hc
    simp only [Bool.true_and] at hc
    simp [hc]

theorem orCaps_go (l : List (Nat × DeviceType)) (a : Nat) :
    l.foldl (fun x e => x ||| mapper_input_info_get_caps e.2) a
      = a ||| l.foldl (fun x e => x ||| mapper_input_info_get_caps e.2) 0 := by
  induction l generalizing a with
  | nil => simp
  | cons e t ih =>
    simp only [List.foldl_cons]
    rw [ih (a ||| mapper_input_info_get_caps e.2),
        ih (0 ||| mapper_input_info_get_caps e.2),
        Nat.zero_or, Nat.lor_assoc]

theorem orCaps_cons (e : Nat × DeviceType) (l : List (Nat × DeviceType)) :
    orCaps (e :: l) = mapper_input_info_get_caps e.2 ||| orCaps l := by
  simp only [orCaps, List.foldl_cons]
  rw [orCaps_go, Nat.zero_or]

theorem caps_mem_orCaps (l : List (Nat × DeviceType)) (e : Nat × DeviceType) (he : e ∈ l) :
    mapper_input_info_get_caps e.2 &&& orCaps l = mapper_input_info_get_caps e.2 := by
  induction l with
  | nil => cases he
  | cons x t ih =>
    rw [orCaps_cons]
    rcases List.mem_cons.mp he with rfl | he
    · exact and_lor_self _ _
    · exact and_lor_right_absorb _ _ _ (ih he)

theorem disj_of_and_orCaps (a : Nat) (l : List (Nat × DeviceType))
    (h : a &&& orCaps l = 0) :
    ∀ e ∈ l, a &&& mapper_input_info_get_caps e.2 = 0 := by
  induction l with
  | nil => intro e he; cases he
  | cons x t ih =>
    rw [orCaps_cons] at h
    have hs := (and_lor_eq_zero_iff _ _ _).mp h
    intro e he
    rcases List.mem_cons.mp he with rfl | he
    · exact hs.1
    · exact ih hs.2 e he

theorem testBit_ite_shift_self (c : Bool) (k : Nat) :
    (if c then 1 <<< k else 0).testBit k = c := by
  cases c with
  | false => simp
  | true =>
    simp only [if_pos]
    rw [Nat.shiftLeft_eq, one_mul]
    exact Nat.testBit_two_pow_self

theorem testBit_ite_shift_ne (c : Bool) (k i : Nat) (h : i ≠ k) :
    (if c then 1 <<< k else 0).testBit i = false := by
  cases c with
  | false => simp
  | true =>
    simp only [if_pos]
    rw [Nat.shiftLeft_eq, one_mul]
    exact Nat.testBit_two_pow_of_ne (Ne.symm h)

/-- The result of `match_edid` is always one of the three EDID outcomes. -/
theorem match_edid_cases (n : String) (m : Monitor) :
    match_edid n m = none ∨ match_edid n m = some MetaOutputMatchType.edidVendor ∨
    match_edid n m = some MetaOutputMatchType.edidPartial ∨
    match_edid n m = some MetaOutputMatchType.edidFull := by
  unfold match_edid
  split
  · exact Or.inl rfl
  · split
    · exact Or.inr (Or.inr (Or.inr rfl))
    · split
      · exact Or.inr (Or.inr (Or.inl rfl))
      · exact Or.inr (Or.inl rfl)

/-- Unfolding of the EDID component's shift into a power of two. -/
theorem edidComponent_some (t : MetaOutputMatchType) :
    edidComponent (some t) = 2 ^ matchTypeBit t := by
  simp [edidComponent, Nat.shiftLeft_eq]

/-- The EDID component never contributes to bits 3 and above. -/
theorem edidComponent_testBit_ge3 (n : String) (m : Monitor) (i : Nat) (hi : 3 ≤ i) :
    (edidComponent (match_edid n m)).testBit i = false := by
  rcases match_edid_cases n m with h | h | h | h <;> rw [h]
  · simp [edidComponent]
  · rw [edidComponent_some]
    exact Nat.testBit_two_pow_of_ne (by simp only [matchTypeBit]; omega)
  · rw [edidComponent_some]
    exact Nat.testBit_two_pow_of_ne (by simp only [matchTypeBit]; omega)
  · rw [edidComponent_some]
    exact Nat.testBit_two_pow_of_ne (by simp only [matchTypeBit]; omega)

/-- The size bit of a score is exactly the `integrated && match_size`
condition of `guess_candidates`. -/
theorem deviceScore_testBit3 (mgr : MonitorManager) (d : InputDevice) (m : Monitor) :
    (deviceScore mgr d m).testBit 3 = (d.integrated && match_size d.physSize m) := by
  unfold deviceScore
  simp only [matchTypeBit]
  rw [Nat.testBit_lor, Nat.testBit_lor, Nat.testBit_lor,
      testBit_ite_shift_self, testBit_ite_shift_ne _ 4 3 (by decide),
      testBit_ite_shift_ne _ 5 3 (by decide),
      edidComponent_testBit_ge3 d.name m 3 (by omega)]
  simp

/-- The config bit of a score is exactly the `match_config` outcome. -/
theorem deviceScore_testBit5 (mgr : MonitorManager) (d : InputDevice) (m : Monitor) :
    (deviceScore mgr d m).testBit 5 = (match_config d.cfg m).1 := by
  unfold deviceScore
  simp only [matchTypeBit]
  rw [Nat.testBit_lor, Nat.testBit_lor, Nat.testBit_lor,
      testBit_ite_shift_self, testBit_ite_shift_ne _ 3 5 (by decide),
      testBit_ite_shift_ne _ 4 5 (by decide),
      edidComponent_testBit_ge3 d.name m 5 (by omega)]
  simp

/-- Bits 0-2 of a score come only from the EDID component. -/
theorem deviceScore_testBit_low (mgr : MonitorManager) (d : InputDevice) (m : Monitor)
    (i : Nat) (hi : i < 3) :
    (deviceScore mgr d m).testBit i
      = (edidComponent (match_edid d.name m)).testBit i := by
  unfold deviceScore
  simp only [matchTypeBit]
  rw [Nat.testBit_lor, Nat.testBit_lor, Nat.testBit_lor,
      testBit_ite_shift_ne _ 3 i (by omega), testBit_ite_shift_ne _ 4 i (by omega),
      testBit_ite_shift_ne _ 5 i (by omega)]
  simp

/-- A device whose name contains the whole product but not the vendor. -/
def devNoVendor : InputDevice := ⟨11, .pen, "Cintiq 12WX", none, true, false, ["", "", ""]⟩

/-- A monitor whose vendor string does not occur in `devNoVendor`'s name. -/
def mVendorXYZ : Monitor := ⟨3, "XYZ", "Cintiq 12WX", "", 0, 0⟩

/-- Manager exposing only `mVendorXYZ`. -/
def mgrXYZ : MonitorManager := ⟨[mVendorXYZ], [3], none⟩

/-- C5 counterexample: the claim says the EDID-full bit is set whenever the
entire output product string appears case-insensitively in the device
name.  `match_edid` however first requires the VENDOR string to appear and
returns no match at all otherwise: with device name "Cintiq 12WX" and an
output (vendor "XYZ", product "Cintiq 12WX"), the whole product appears
but the score has no EDID bit (it is 0). -/
theorem C5_counterexample :
    strcasestr devNoVendor.name mVendorXYZ.product = true ∧
    match_edid devNoVendor.name mVendorXYZ = none ∧
    deviceScore mgrXYZ devNoVendor mVendorXYZ = 0 := by
  refine ⟨by decide, by decide, by decide⟩

/-- C5 amended: a score sets at most one of the three EDID bits; WHEN the
output vendor string appears case-insensitively in the device name, the
EDID-full bit is set whenever the entire product string also appears,
superseding the partial and vendor bits; when the vendor string does not
appear, no EDID bit at all is set. -/
theorem C5_edid_bits (mgr : MonitorManager) (d : InputDevice) (m : Monitor) :
    (¬((deviceScore mgr d m).testBit 0 = true ∧ (deviceScore mgr d m).testBit 1 = true)) ∧
    (¬((deviceScore mgr d m).testBit 0 = true ∧ (deviceScore mgr d m).testBit 2 = true)) ∧
    (¬((deviceScore mgr d m).testBit 1 = true ∧ (deviceScore mgr d m).testBit 2 = true)) ∧
    (strcasestr d.name m.vendor = true → strcasestr d.name m.product = true →
      ((deviceScore mgr d m).testBit 2 = true ∧ (deviceScore mgr d m).testBit 1 = false ∧
        (deviceScore mgr d m).testBit 0 = false)) ∧
    (strcasestr d.name m.vendor = false →
      ((deviceScore mgr d m).testBit 0 = false ∧ (deviceScore mgr d m).testBit 1 = false ∧
        (deviceScore mgr d m).testBit 2 = false)) := by
  have h0 := deviceScore_testBit_low mgr d m 0 (by omega)
  have h1 := deviceScore_testBit_low mgr d m 1 (by omega)
  have h2 := deviceScore_testBit_low mgr d m 2 (by omega)
  refine ⟨?_, ?_, ?_, ?_, ?_⟩
  · rintro ⟨ha, hb⟩
    rw [h0] at ha; rw [h1] at hb
    rcases match_edid_cases d.name m with h | h | h | h <;> rw [h] at ha hb <;>
      revert ha hb <;> decide
  · rintro ⟨ha, hb⟩
    rw [h0] at ha; rw [h2] at hb
    rcases match_edid_cases d.name m with h | h | h | h <;> rw [h] at ha hb <;>
      revert ha hb <;> decide
  · rintro ⟨ha, hb⟩
    rw [h1] at ha; rw [h2] at hb
    rcases match_edid_cases d.name m with h | h | h | h <;> rw [h] at ha hb <;>
      revert ha hb <;> decide
  · intro hv hp
    have he : match_edid d.name m = some MetaOutputMatchType.edidFull := by
      unfold match_edid
      rw [hv, hp]
      simp
    rw [h0, h1, h2, he]
    refine ⟨by decide, by decide, by decide⟩
  · intro hv
    have he : match_edid d.name m = none := by
      unfold match_edid
      rw [hv]
      simp
    rw [h0, h1, h2, he]
    refine ⟨by decide, by decide, by decide⟩

/-- C5 witness: the amended theorem applied to the Scenario A device and
its full-match monitor. -/
theorem C5_edid_bits_witness :
    strcasestr devWacom.name mCintiq12WX.vendor = true ∧
    strcasestr devWacom.name mCintiq12WX.product = true ∧
    (deviceScore mgrScenA devWacom mCintiq12WX).testBit 2 = true :=
  ⟨by decide, by decide,
    ((C5_edid_bits mgrScenA devWacom mCintiq12WX).2.2.2.1 (by decide) (by decide)).1⟩

/-- Characterization of `match_config`'s match flag. -/
theorem match_config_true_iff (cfg : List String) (m : Monitor) :
    (match_config cfg m).1 = true ↔
      (∃ a b c, cfg = [a, b, c] ∧ ¬(a = "" ∧ b = "" ∧ c = "") ∧
        a = m.vendor ∧ b = m.product ∧ c = m.serial) := by
  rcases cfg with _ | ⟨a, _ | ⟨b, _ | ⟨c, _ | ⟨e, t⟩⟩⟩⟩
  · simp [match_config]
  · simp [match_config]
  · simp [match_config]
  · by_cases he : a = "" ∧ b = "" ∧ c = ""
    · obtain ⟨rfl, rfl, rfl⟩ := he
      simp [match_config]
    · have hb : (a == "" && b == "" && c == "") = false := by
        rcases not_and_or.mp he with h | h
        · simp [h]
        · rcases not_and_or.mp h with h | h <;> simp [h]
      simp only [match_config]
      rw [if_neg (by simp [hb])]
      simp only [Bool.and_eq_true, beq_iff_eq]
      constructor
      · rintro ⟨⟨hv, hp⟩, hs⟩
        exact ⟨a, b, c, rfl, he, hv.symm, hp.symm, hs.symm⟩
      · rintro ⟨a', b', c', heq, _, hv, hp, hs⟩
        simp only [List.cons.injEq, and_true] at heq
        obtain ⟨rfl, rfl, rfl⟩ := heq
        exact ⟨⟨hv.symm, hp.symm⟩, hs.symm⟩
  · simp [match_config]

/-- A `match_config` vector of length other than 3 is rejected with a
warning and no match. -/
theorem match_config_bad_length (cfg : List String) (m : Monitor)
    (h : cfg.length ≠ 3) : match_config cfg m = (false, true) := by
  rcases cfg with _ | ⟨a, _ | ⟨b, _ | ⟨c, _ | ⟨e, t⟩⟩⟩⟩ <;>
    first
    | rfl
    | exact absurd rfl h

/-- C6: the config bit of a score is set exactly when the device's
configuration override is a 3-field, not-all-empty vector equal to the
output's (vendor, product, serial); a vector with a different field count
is flagged (the `g_warning` path) and the score is the same as with the
default all-empty override — the heuristic criteria are unaffected and
scoring is total. -/
theorem C6_config_exact (mgr : MonitorManager) (d : InputDevice) (m : Monitor) :
    ((deviceScore mgr d m).testBit 5 = true ↔
      (∃ a b c, d.cfg = [a, b, c] ∧ ¬(a = "" ∧ b = "" ∧ c = "") ∧
        a = m.vendor ∧ b = m.product ∧ c = m.serial)) ∧
    (d.cfg.length ≠ 3 →
      ((match_config d.cfg m).2 = true ∧
        deviceScore mgr d m = deviceScore mgr { d with cfg := ["", "", ""] } m)) := by
  constructor
  · rw [deviceScore_testBit5]
    exact match_config_true_iff d.cfg m
  · intro hlen
    have hbad := match_config_bad_length d.cfg m hlen
    refine ⟨by rw [hbad], ?_⟩
    unfold deviceScore
    have h1 : (match_config d.cfg m).1 = false := by rw [hbad]
    have h2 : (match_config (["", "", ""] : List String) m).1 = false := by
      simp [match_config]
    simp only [h1]
    simp [h2]

/-- C6 witness: a two-field override is flagged and scored as absent. -/
theorem C6_config_exact_witness :
    (InputDevice.cfg { devWacom with cfg := ["WAC", "Cintiq"] }).length ≠ 3 ∧
    (match_config (InputDevice.cfg { devWacom with cfg := ["WAC", "Cintiq"] }) mCintiq).2
        = true ∧
    deviceScore mgrScenA { devWacom with cfg := ["WAC", "Cintiq"] } mCintiq
      = deviceScore mgrScenA
          { { devWacom with cfg := ["WAC", "Cintiq"] } with cfg := ["", "", ""] } mCintiq :=
  ⟨by decide,
    (C6_config_exact mgrScenA { devWacom with cfg := ["WAC", "Cintiq"] } mCintiq).2
      (by decide)⟩

/-- C7: when the heuristic candidate list of a device is empty, exactly
one synthetic candidate with score 0 pointing at the laptop panel is
produced if a panel exists; with no panel the device has zero candidates,
`mapping_helper_apply`'s inner loop never runs, and the state — and hence
the device's (un)binding — is untouched: no failure of any kind. -/
theorem C7_empty_candidates (mgr : MonitorManager) (d : InputDevice)
    (h : rawCandidates mgr d = []) :
    (∀ p, mgr.laptopPanel = some p → guess_candidates mgr d = ([(p, 0)], 0)) ∧
    (mgr.laptopPanel = none →
      (guess_candidates mgr d = ([], 0) ∧
        ∀ st : State, applyOne st ⟨d.id, d.dtype, (guess_candidates mgr d).1,
          (guess_candidates mgr d).2⟩ = st)) := by
  constructor
  · intro p hp
    unfold guess_candidates
    rw [h, hp]
  · intro hp
    have hg : guess_candidates mgr d = ([], 0) := by
      unfold guess_candidates
      rw [h, hp]
    refine ⟨hg, fun st => ?_⟩
    rw [hg]
    rfl

/-- Manager with no outputs at all. -/
def mgrEmpty : MonitorManager := ⟨[], [], none⟩

/-- C7 witness: with zero outputs the touchscreen gets zero candidates and
a recompute step leaves any state unchanged. -/
theorem C7_empty_candidates_witness :
    rawCandidates mgrEmpty devTouch = [] ∧
    guess_candidates mgrEmpty devTouch = ([], 0) ∧
    applyOne State.start ⟨devTouch.id, devTouch.dtype,
      (guess_candidates mgrEmpty devTouch).1, (guess_candidates mgrEmpty devTouch).2⟩
      = State.start :=
  ⟨rfl, ((C7_empty_candidates mgrEmpty devTouch rfl).2 rfl).1,
    ((C7_empty_candidates mgrEmpty devTouch rfl).2 rfl).2 State.start⟩

/-- Monitor of Scenario D's first output, physical size 290 by 185 mm. -/
def mSize290 : Monitor := ⟨20, "SZV", "SizeA", "", 290, 185⟩

/-- Monitor of Scenario D's second output, physical size 400 by 250 mm. -/
def mSize400 : Monitor := ⟨21, "SZV", "SizeB", "", 400, 250⟩

/-- Integrated device with physical size 300 by 190 mm. -/
def devSize300 : InputDevice := ⟨12, .pen, "Pen", some (300, 190), true, false, ["", "", ""]⟩

/-- Manager exposing the two Scenario D outputs. -/
def mgrSize : MonitorManager := ⟨[mSize290, mSize400], [20, 21], none⟩

/-- C8: for an integrated device with known physical size, the size bit of
a score is set exactly when both the width and height ratios of output to
device physical size differ from 1 by strictly less than 5 percent; the
300 by 190 mm device matches the 290 by 185 mm output and not the 400 by
250 mm one; an absent physical size just leaves the bit unset. -/
theorem C8_size_ratio :
    (∀ (mgr : MonitorManager) (d : InputDevice) (m : Monitor) (iw ihh : ℚ),
      d.integrated = true → d.physSize = some (iw, ihh) →
      ((deviceScore mgr d m).testBit 3 = true ↔
        (|1 - (m.widthMM : ℚ) / iw| < 5/100 ∧ |1 - (m.heightMM : ℚ) / ihh| < 5/100))) ∧
    match_size devSize300.physSize mSize290 = true ∧
    match_size devSize300.physSize mSize400 = false ∧
    (deviceScore mgrSize devSize300 mSize290).testBit 3 = true ∧
    (deviceScore mgrSize devSize300 mSize400).testBit 3 = false ∧
    (∀ (mgr : MonitorManager) (d : InputDevice) (m : Monitor),
      d.physSize = none → (deviceScore mgr d m).testBit 3 = false) := by
  have hgen : ∀ (mgr : MonitorManager) (d : InputDevice) (m : Monitor) (iw ihh : ℚ),
      d.integrated = true → d.physSize = some (iw, ihh) →
      ((deviceScore mgr d m).testBit 3 = true ↔
        (|1 - (m.widthMM : ℚ) / iw| < 5/100 ∧ |1 - (m.heightMM : ℚ) / ihh| < 5/100)) := by
    intro mgr d m iw ihh hint hsz
    rw [deviceScore_testBit3, hint, hsz]
    simp [match_size]
  have h290 : match_size devSize300.physSize mSize290 = true := by
    norm_num [devSize300, mSize290, match_size, abs_lt]
  have h400 : match_size devSize300.physSize mSize400 = false := by
    norm_num [devSize300, mSize400, match_size, abs_lt]
  refine ⟨hgen, h290, h400, ?_, ?_, ?_⟩
  · rw [deviceScore_testBit3, h290]
    rfl
  · rw [deviceScore_testBit3, h400]
    rfl
  · intro mgr d m hnone
    rw [deviceScore_testBit3, hnone]
    simp [match_size]

/-- C8 witness: the general ratio criterion applied at Scenario D's
concrete numbers. -/
theorem C8_size_ratio_witness :
    devSize300.integrated = true ∧ devSize300.physSize = some (300, 190) ∧
    (deviceScore mgrSize devSize300 mSize290).testBit 3 = true :=
  ⟨rfl, rfl,
    (C8_size_ratio.1 mgrSize devSize300 mSize290 300 190 rfl rfl).mpr
      ⟨by rw [mSize290]; rw [abs_lt]; constructor <;> norm_num,
       by rw [mSize290]; rw [abs_lt]; constructor <;> norm_num⟩⟩

/-- The state after the touchscreen bound to the panel and the power mode
was put to standby. -/
def stStandby : State :=
  power_save_mode_changed
    (meta_input_mapper_add_device (mapper_update_outputs State.start mgrPanel) devTouch)
    PowerMode.standby

/-- C9 counterexample: the claim says the enabled notification fires only
when the power state transitions into or out of fully-on.  The callback
has no memory of the previous mode and emits on EVERY power-save-mode
change: going from standby to off — neither endpoint fully on — still
emits `device-enabled` (with payload false). -/
theorem C9_counterexample :
    stStandby.power = PowerMode.standby ∧
    PowerMode.standby ≠ PowerMode.fullOn ∧
    PowerMode.off ≠ PowerMode.fullOn ∧
    (power_save_mode_changed stStandby PowerMode.off).events
      = stStandby.events ++ [Event.enabled devTouch.id false] := by
  refine ⟨by decide, by decide, by decide, by decide⟩

/-- C9 amended: on every power-save-mode change notification, the enabled
signal is emitted exactly when a laptop panel exists and a touchscreen is
currently attached to its logical monitor; it targets that touchscreen
and its payload is true exactly when the new power state is fully on —
whether or not the transition crossed the fully-on boundary. -/
theorem C9_enabled_emission (st : State) (pm : PowerMode) :
    (power_save_mode_changed st pm).events = st.events ++
      (match st.mgr.laptopPanel with
       | none => []
       | some p =>
         match meta_input_mapper_get_logical_monitor_device st p DeviceType.touchscreen with
         | none => []
         | some did => [Event.enabled did (pm == PowerMode.fullOn)]) ∧
    ((pm == PowerMode.fullOn) = true ↔ pm = PowerMode.fullOn) := by
  constructor
  · unfold power_save_mode_changed
    cases hp : st.mgr.laptopPanel with
    | none => simp [hp]
    | some p =>
      simp only [hp]
      split
      · next h =>
        have h' : meta_input_mapper_get_logical_monitor_device st p
            DeviceType.touchscreen = none := h
        simp [h']
      · next did h =>
        have h' : meta_input_mapper_get_logical_monitor_device st p
            DeviceType.touchscreen = some did := h
        simp [h']
  · exact beq_iff_eq

/-- C10: when `mapper_input_info_set_output` is asked to set the output
the device is already bound to, it returns without touching any state and
without emitting the mapped or aspect-ratio signals. -/
theorem C10_same_output_noop (st : State) (did : Nat) (i : InputInfo) (out : Option Nat)
    (hfind : st.inputs.find? (fun j => j.dev.id == did) = some i)
    (hout : i.output = out) :
    mapper_input_info_set_output st did out = st := by
  unfold mapper_input_info_set_output
  rw [hfind]
  subst hout
  simp

/-- The state with the touchscreen bound to the panel. -/
def stBound : State :=
  meta_input_mapper_add_device (mapper_update_outputs State.start mgrPanel) devTouch

/-- C10 witness: re-assigning the bound touchscreen to its own output is a
no-op. -/
theorem C10_same_output_noop_witness :
    stBound.inputs.find? (fun j => j.dev.id == 9) = some ⟨devTouch, some 5⟩ ∧
    mapper_input_info_set_output stBound 9 (some 5) = stBound :=
  ⟨by decide,
    C10_same_output_noop stBound 9 ⟨devTouch, some 5⟩ (some 5) (by decide) rfl⟩

/-! Machinery for the C4 state invariants. -/

/-- The full inductive invariant of the mapper state: the two tables have
no duplicate keys, every output's mask is the OR of its attached devices'
capabilities, attached devices have pairwise disjoint capabilities, the
input-side binding and the output-side membership agree in both
directions, and no output lists a device twice. -/
structure MapperInv (st : State) : Prop where
  idsNodup : (st.inputs.map fun i => i.dev.id).Nodup
  monNodup : (st.outputs.map OutputInfo.monitor).Nodup
  maskEq : ∀ o ∈ st.outputs, o.attachedCaps = orCaps o.devices
  disj : ∀ o ∈ st.outputs,
    o.devices.Pairwise fun a b =>
      mapper_input_info_get_caps a.2 &&& mapper_input_info_get_caps b.2 = 0
  bound : ∀ i ∈ st.inputs, ∀ mid, i.output = some mid →
    ∃ o ∈ st.outputs, o.monitor = mid ∧ (i.dev.id, i.dev.dtype) ∈ o.devices
  entries : ∀ o ∈ st.outputs, ∀ e ∈ o.devices,
    ∃ i ∈ st.inputs, i.dev.id = e.1 ∧ i.dev.dtype = e.2 ∧ i.output = some o.monitor
  entryIds : ∀ o ∈ st.outputs, (o.devices.map Prod.fst).Nodup

/-- `find?` by a key that occurs uniquely returns the member that has it. -/
theorem find?_eq_of_mem_nodup {α : Type} (l : List α) (f : α → Nat)
    (hn : (l.map f).Nodup) (i : α) (hi : i ∈ l) (k : Nat) (hk : f i = k) :
    l.find? (fun j => f j == k) = some i := by
  induction l with
  | nil => cases hi
  | cons x t ih =>
    rcases List.mem_cons.mp hi with rfl | hi
    · exact List.find?_cons_of_pos t (by simp [hk])
    · have hne : f x ≠ k := by
        intro he
        have hmem : f x ∈ t.map f := by
          rw [he, ← hk]; exact List.mem_map_of_mem f hi
        exact (List.nodup_cons.mp hn).1 hmem
      rw [List.find?_cons_of_neg t (by simp [hne])]
      exact ih (List.nodup_cons.mp hn).2 hi

/-- Members with equal keys are equal when the key list has no duplicates. -/
theorem eq_of_mem_nodup_keys {α : Type} (l : List α) (f : α → Nat)
    (hn : (l.map f).Nodup) (i j : α) (hi : i ∈ l) (hj : j ∈ l) (h : f i = f j) :
    i = j :=
  List.inj_on_of_nodup_map hn hi hj h

/-- `setBinding` leaves the device ids untouched. -/
theorem setBinding_map_ids (l : List InputInfo) (did : Nat) (out : Option Nat) :
    (setBinding l did out).map (fun i => i.dev.id) = l.map (fun i => i.dev.id) := by
  simp only [setBinding, List.map_map]
  apply List.map_congr_left
  intro a _
  by_cases h : a.dev.id = did <;> simp [h]

/-- A member whose id is not the updated one survives `setBinding`
unchanged. -/
theorem mem_setBinding_of_ne (l : List InputInfo) (did : Nat) (out : Option Nat)
    (j : InputInfo) (hj : j ∈ l) (hne : j.dev.id ≠ did) :
    j ∈ setBinding l did out := by
  have : (if j.dev.id == did then { j with output := out } else j) = j := by
    simp [hne]
  rw [setBinding, ← this]
  exact List.mem_map_of_mem _ hj

/-- Decomposition of membership in `setBinding`. -/
theorem of_mem_setBinding (l : List InputInfo) (did : Nat) (out : Option Nat)
    (j' : InputInfo) (h : j' ∈ setBinding l did out) :
    ∃ j ∈ l, j' = if j.dev.id = did then { j with output := out } else j := by
  simp only [setBinding, List.mem_map] at h
  obtain ⟨j, hj, rfl⟩ := h
  refine ⟨j, hj, ?_⟩
  by_cases hc : j.dev.id = did <;> simp [hc]

/-- Every member of `setBinding` at the updated id carries the new
binding. -/
theorem setBinding_output_of_id (l : List InputInfo) (did : Nat) (out : Option Nat)
    (j : InputInfo) (hj : j ∈ setBinding l did out) (hid : j.dev.id = did) :
    j.output = out := by
  obtain ⟨j0, _, hform⟩ := of_mem_setBinding l did out j hj
  by_cases hc : j0.dev.id = did
  · rw [if_pos hc] at hform
    rw [hform]
  · rw [if_neg hc] at hform
    rw [hform] at hid
    exact absurd hid hc

/-- Updating an output that keeps its monitor does not change the monitor
column. -/
theorem updOutput_map_monitor (outs : List OutputInfo) (mid : Nat)
    (f : OutputInfo → OutputInfo) (hf : ∀ o, (f o).monitor = o.monitor) :
    (updOutput outs mid f).map OutputInfo.monitor = outs.map OutputInfo.monitor := by
  simp only [updOutput, List.map_map]
  apply List.map_congr_left
  intro o _
  by_cases h : o.monitor = mid <;> simp [h, hf]

/-- Decomposition of membership in `updOutput`. -/
theorem of_mem_updOutput (outs : List OutputInfo) (mid : Nat)
    (f : OutputInfo → OutputInfo) (o' : OutputInfo) (h : o' ∈ updOutput outs mid f) :
    ∃ o ∈ outs, o' = if o.monitor = mid then f o else o := by
  simp only [updOutput, List.mem_map] at h
  obtain ⟨o, ho, rfl⟩ := h
  refine ⟨o, ho, ?_⟩
  by_cases hc : o.monitor = mid <;> simp [hc]

/-- The image of a member under `updOutput`. -/
theorem mem_updOutput_of_mem (outs : List OutputInfo) (mid : Nat)
    (f : OutputInfo → OutputInfo) (o : OutputInfo) (ho : o ∈ outs) :
    (if o.monitor = mid then f o else o) ∈ updOutput outs mid f := by
  have : (if o.monitor = mid then f o else o)
      = (fun p => if p.monitor == mid then f p else p) o := by
    by_cases hc : o.monitor = mid <;> simp [hc]
  rw [updOutput, this]
  exact List.mem_map_of_mem _ ho

/-- Mapping inputs with an id-preserving function keeps the id column. -/
theorem map_inputs_ids (l : List InputInfo) (g : InputInfo → InputInfo)
    (hg : ∀ j, (g j).dev.id = j.dev.id) :
    (l.map g).map (fun i => i.dev.id) = l.map (fun i => i.dev.id) := by
  rw [List.map_map]
  apply List.map_congr_left
  intro a _
  exact hg a

/-- No entry of any output carries the id of an unbound input. -/
theorem no_entry_of_unbound (st : State) (hinv : MapperInv st) (did : Nat) (j : InputInfo)
    (hj : j ∈ st.inputs) (hjid : j.dev.id = did) (hub : j.output = none) :
    ∀ o ∈ st.outputs, ∀ e ∈ o.devices, e.1 ≠ did := by
  intro o ho e he heq
  obtain ⟨i2, hi2, hid2, _, ho2⟩ := hinv.entries o ho e he
  have : i2 = j := by
    apply eq_of_mem_nodup_keys st.inputs (fun i => i.dev.id) hinv.idsNodup i2 j hi2 hj
    rw [hid2, heq, hjid]
  rw [this, hub] at ho2
  exact Option.noConfusion ho2

/-- After erasing the entry with a given id from a duplicate-free entry
list, no entry with that id remains. -/
theorem eraseP_id_gone (l : List (Nat × DeviceType)) (did : Nat)
    (hn : (l.map Prod.fst).Nodup) :
    ∀ e ∈ l.eraseP (fun e => e.1 == did), e.1 ≠ did := by
  induction l with
  | nil => intro e he; cases he
  | cons x t ih =>
    intro e he heq
    rw [List.eraseP_cons] at he
    by_cases hx : (x.1 == did) = true
    · rw [hx, cond_true] at he
      have hxd : x.1 = did := by simpa using hx
      have hnm : x.1 ∉ t.map Prod.fst := (List.nodup_cons.mp hn).1
      exact hnm (by rw [hxd, ← heq]; exact List.mem_map_of_mem Prod.fst he)
    · rw [Bool.of_not_eq_true hx, cond_false] at he
      rcases List.mem_cons.mp he with rfl | he
      · exact hx (by simp [heq])
      · exact ih (List.nodup_cons.mp hn).2 e he heq

/-- Invariance transfers across states with equal tables. -/
theorem MapperInv_transfer (st st' : State) (hinv : MapperInv st)
    (hi : st'.inputs = st.inputs) (ho : st'.outputs = st.outputs) : MapperInv st' := by
  refine ⟨?_, ?_, ?_, ?_, ?_, ?_, ?_⟩
  · rw [hi]; exact hinv.idsNodup
  · rw [ho]; exact hinv.monNodup
  · rw [ho]; exact hinv.maskEq
  · rw [ho]; exact hinv.disj
  · rw [hi, ho]; exact hinv.bound
  · rw [hi, ho]; exact hinv.entries
  · rw [ho]; exact hinv.entryIds

/-- The output update applied by `mapper_output_info_add_input`. -/
def addDev (did : Nat) (t : DeviceType) (o : OutputInfo) : OutputInfo :=
  { o with
    devices := (did, t) :: o.devices
    attachedCaps := o.attachedCaps ||| mapper_input_info_get_caps t }

/-- The output update applied by `mapper_output_info_remove_input`. -/
def delDev (did : Nat) (o : OutputInfo) : OutputInfo :=
  { o with
    devices := o.devices.eraseP (fun e => e.1 == did)
    attachedCaps := orCaps (o.devices.eraseP (fun e => e.1 == did)) }

/-- `mapper_input_info_set_output` on a found input with a different
binding: the update path. -/
theorem set_output_update (st : State) (did : Nat) (out : Option Nat) (i : InputInfo)
    (hfind : st.inputs.find? (fun j => j.dev.id == did) = some i)
    (hne : i.output ≠ out) :
    mapper_input_info_set_output st did out =
      { st with
        inputs := setBinding st.inputs did out
        events := st.events ++ [Event.mapped did out, Event.aspect did out] } := by
  unfold mapper_input_info_set_output
  rw [hfind]
  dsimp only
  rw [if_neg (by simp [hne])]

/-- Explicit form of `mapper_output_info_add_input` for an unbound known
input. -/
theorem add_input_state (st : State) (mid : Nat) (i : InputInfo)
    (hids : (st.inputs.map fun j => j.dev.id).Nodup)
    (hi : i ∈ st.inputs) (hub : i.output = none) :
    mapper_output_info_add_input st mid i.dev.id i.dev.dtype =
      { st with
        outputs := updOutput st.outputs mid (addDev i.dev.id i.dev.dtype)
        inputs := setBinding st.inputs i.dev.id (some mid)
        events := st.events ++ [Event.mapped i.dev.id (some mid),
          Event.aspect i.dev.id (some mid)] } := by
  unfold mapper_output_info_add_input
  exact set_output_update _ _ _ i
    (find?_eq_of_mem_nodup st.inputs (fun j => j.dev.id) hids i hi _ rfl)
    (by rw [hub]; simp)

/-- Explicit form of `mapper_output_info_remove_input` for an input bound
to `mid`. -/
theorem remove_input_state (st : State) (mid : Nat) (i : InputInfo)
    (hids : (st.inputs.map fun j => j.dev.id).Nodup)
    (hi : i ∈ st.inputs) (hb : i.output = some mid) :
    mapper_output_info_remove_input st mid i.dev.id =
      { st with
        outputs := updOutput st.outputs mid (delDev i.dev.id)
        inputs := setBinding st.inputs i.dev.id none
        events := st.events ++ [Event.mapped i.dev.id none, Event.aspect i.dev.id none] } := by
  unfold mapper_output_info_remove_input
  exact set_output_update _ _ _ i
    (find?_eq_of_mem_nodup st.inputs (fun j => j.dev.id) hids i hi _ rfl)
    (by rw [hb]; simp)

/-- The invariant is preserved by `mapper_output_info_add_input` when the
input is known, unbound, and the target output exists with a capability
mask disjoint from the input's capability (the guard checked by
`mapping_helper_apply`). -/
theorem MapperInv_add_input (st : State) (mid : Nat) (i : InputInfo) (o : OutputInfo)
    (hinv : MapperInv st) (hi : i ∈ st.inputs) (hub : i.output = none)
    (ho : o ∈ st.outputs) (hmon : o.monitor = mid)
    (hguard : o.attachedCaps &&& mapper_input_info_get_caps i.dev.dtype = 0) :
    MapperInv (mapper_output_info_add_input st mid i.dev.id i.dev.dtype) := by
  rw [add_input_state st mid i hinv.idsNodup hi hub]
  have hnotentry := no_entry_of_unbound st hinv i.dev.id i hi rfl hub
  have hdisj : ∀ e ∈ o.devices,
      mapper_input_info_get_caps i.dev.dtype &&& mapper_input_info_get_caps e.2 = 0 := by
    apply disj_of_and_orCaps
    rw [← hinv.maskEq o ho]
    exact (and_zero_comm _ _).mp hguard
  refine ⟨?_, ?_, ?_, ?_, ?_, ?_, ?_⟩
  · dsimp only
    rw [setBinding_map_ids]
    exact hinv.idsNodup
  · dsimp only
    rw [updOutput_map_monitor st.outputs mid (addDev i.dev.id i.dev.dtype) (fun p => rfl)]
    exact hinv.monNodup
  · dsimp only
    intro o' ho'
    obtain ⟨o0, ho0, hform⟩ := of_mem_updOutput _ _ _ o' ho'
    by_cases hc : o0.monitor = mid
    · rw [if_pos hc] at hform
      subst hform
      show o0.attachedCaps ||| _ = orCaps ((i.dev.id, i.dev.dtype) :: o0.devices)
      rw [orCaps_cons, hinv.maskEq o0 ho0, Nat.lor_comm]
    · rw [if_neg hc] at hform
      rw [hform]
      exact hinv.maskEq o0 ho0
  · dsimp only
    intro o' ho'
    obtain ⟨o0, ho0, hform⟩ := of_mem_updOutput _ _ _ o' ho'
    by_cases hc : o0.monitor = mid
    · rw [if_pos hc] at hform
      subst hform
      have ho0o : o0 = o :=
        eq_of_mem_nodup_keys st.outputs OutputInfo.monitor hinv.monNodup o0 o ho0 ho
          (by rw [hc, hmon])
      rw [ho0o]
      exact List.Pairwise.cons (fun e he => hdisj e he) (ho0o ▸ hinv.disj o0 ho0)
    · rw [if_neg hc] at hform
      rw [hform]
      exact hinv.disj o0 ho0
  · dsimp only
    intro j' hj' mid' hout'
    obtain ⟨j, hj, hform⟩ := of_mem_setBinding _ _ _ j' hj'
    by_cases hc : j.dev.id = i.dev.id
    · have hji : j = i :=
        eq_of_mem_nodup_keys st.inputs (fun x => x.dev.id) hinv.idsNodup j i hj hi hc
      rw [if_pos hc] at hform
      subst hform
      have hmid : mid = mid' := by
        simpa using hout'
      subst hmid
      refine ⟨addDev i.dev.id i.dev.dtype o, ?_, hmon, ?_⟩
      · have hmem := mem_updOutput_of_mem st.outputs mid (addDev i.dev.id i.dev.dtype) o ho
        rw [if_pos hmon] at hmem
        exact hmem
      · show (j.dev.id, j.dev.dtype) ∈ (i.dev.id, i.dev.dtype) :: o.devices
        rw [hji]
        exact List.mem_cons_self _ _
    · rw [if_neg hc] at hform
      rw [hform] at hout' ⊢
      obtain ⟨o2, ho2, hm2, hent2⟩ := hinv.bound j hj mid' hout'
      by_cases hc2 : o2.monitor = mid
      · refine ⟨addDev i.dev.id i.dev.dtype o2, ?_, hm2, List.mem_cons_of_mem _ hent2⟩
        have hmem := mem_updOutput_of_mem st.outputs mid (addDev i.dev.id i.dev.dtype) o2 ho2
        rw [if_pos hc2] at hmem
        exact hmem
      · refine ⟨o2, ?_, hm2, hent2⟩
        have hmem := mem_updOutput_of_mem st.outputs mid (addDev i.dev.id i.dev.dtype) o2 ho2
        rw [if_neg hc2] at hmem
        exact hmem
  · dsimp only
    intro o' ho' e he
    obtain ⟨o0, ho0, hform⟩ := of_mem_updOutput _ _ _ o' ho'
    by_cases hc : o0.monitor = mid
    · rw [if_pos hc] at hform
      subst hform
      rcases List.mem_cons.mp he with rfl | he
      · refine ⟨{ i with output := some mid }, ?_, rfl, rfl, ?_⟩
        · have hmem := List.mem_map_of_mem
            (fun j => if j.dev.id == i.dev.id then { j with output := some mid } else j) hi
          rw [show (fun j => if j.dev.id == i.dev.id then
              { j with output := some mid } else j) i
              = { i with output := some mid } from by simp] at hmem
          exact hmem
        · show some mid = some (addDev i.dev.id i.dev.dtype o0).monitor
          show some mid = some o0.monitor
          rw [hc]
      · obtain ⟨j2, hj2, hid2, ht2, ho2⟩ := hinv.entries o0 ho0 e he
        have hne2 : j2.dev.id ≠ i.dev.id := by
          rw [hid2]
          exact hnotentry o0 ho0 e he
        exact ⟨j2, mem_setBinding_of_ne _ _ _ j2 hj2 hne2, hid2, ht2, ho2⟩
    · rw [if_neg hc] at hform
      rw [hform] at he ⊢
      obtain ⟨j2, hj2, hid2, ht2, ho2⟩ := hinv.entries o0 ho0 e he
      have hne2 : j2.dev.id ≠ i.dev.id := by
        intro heq
        have hj2i : j2 = i :=
          eq_of_mem_nodup_keys st.inputs (fun x => x.dev.id) hinv.idsNodup j2 i hj2 hi heq
        rw [hj2i, hub] at ho2
        exact Option.noConfusion ho2
      exact ⟨j2, mem_setBinding_of_ne _ _ _ j2 hj2 hne2, hid2, ht2, ho2⟩
  · dsimp only
    intro o' ho'
    obtain ⟨o0, ho0, hform⟩ := of_mem_updOutput _ _ _ o' ho'
    by_cases hc : o0.monitor = mid
    · rw [if_pos hc] at hform
      subst hform
      show (((i.dev.id, i.dev.dtype) :: o0.devices).map Prod.fst).Nodup
      rw [List.map_cons]
      refine List.nodup_cons.mpr ⟨?_, hinv.entryIds o0 ho0⟩
      intro hmem
      obtain ⟨e, he, heq⟩ := List.mem_map.mp hmem
      exact hnotentry o0 ho0 e he heq
    · rw [if_neg hc] at hform
      rw [hform]
      exact hinv.entryIds o0 ho0

/-- The invariant is preserved by one `mapping_helper_apply` iteration for
a candidate record describing a known unbound input; inputs other than
that device survive unchanged. -/
theorem MapperInv_applyOne (st : State) (info : DeviceCandidates)
    (hinv : MapperInv st) (i : InputInfo) (hi : i ∈ st.inputs)
    (hid : i.dev.id = info.devId) (ht : i.dev.dtype = info.dtype) (hub : i.output = none) :
    MapperInv (applyOne st info) ∧
    ∀ j ∈ st.inputs, j.dev.id ≠ info.devId → j ∈ (applyOne st info).inputs := by
  rcases hfind : info.matchArr.find? (fun c =>
      match st.outputs.find? (fun o => o.monitor == c.1) with
      | none => false
      | some o => o.attachedCaps &&& mapper_input_info_get_caps info.dtype == 0) with _ | c
  · unfold applyOne
    rw [hfind]
    exact ⟨hinv, fun j hj _ => hj⟩
  · have hpred := List.find?_some hfind
    unfold applyOne
    rw [hfind]
    dsimp only
    rcases hof : st.outputs.find? (fun o => o.monitor == c.1) with _ | o
    · rw [hof] at hpred
      cases hpred
    · rw [hof] at hpred
      have hguard : o.attachedCaps &&& mapper_input_info_get_caps info.dtype = 0 := by
        simpa using hpred
      have ho : o ∈ st.outputs := List.mem_of_find?_eq_some hof
      have hmon : o.monitor = c.1 := by
        simpa using List.find?_some hof
      constructor
      · rw [← hid, ← ht]
        refine MapperInv_add_input st c.1 i o hinv hi hub ho hmon ?_
        rw [ht]
        exact hguard
      · intro j hj hne
        rw [← hid, ← ht]
        rw [add_input_state st c.1 i hinv.idsNodup hi hub]
        dsimp only
        refine mem_setBinding_of_ne _ _ _ j hj ?_
        rw [hid]
        exact hne

/-- The invariant is preserved by `mapping_helper_apply` over a batch of
candidate records that describe distinct, known, unbound inputs. -/
theorem MapperInv_apply_fold (maps : List DeviceCandidates) :
    ∀ st : State, MapperInv st →
    (∀ info ∈ maps, ∃ i ∈ st.inputs,
      i.dev.id = info.devId ∧ i.dev.dtype = info.dtype ∧ i.output = none) →
    (maps.map DeviceCandidates.devId).Nodup →
    MapperInv (mapping_helper_apply st maps) := by
  induction maps with
  | nil => intro st hinv _ _; exact hinv
  | cons info t ih =>
    intro st hinv hb hnd
    obtain ⟨i, hi, hid, ht, hub⟩ := hb info (List.mem_cons_self info t)
    obtain ⟨hinv', hpres⟩ := MapperInv_applyOne st info hinv i hi hid ht hub
    show MapperInv (mapping_helper_apply (applyOne st info) t)
    apply ih (applyOne st info) hinv'
    · intro info' hinfo'
      obtain ⟨i', hi', hid', ht', hub'⟩ := hb info' (List.mem_cons_of_mem info hinfo')
      have hne : i'.dev.id ≠ info.devId := by
        rw [hid']
        intro he
        exact (List.nodup_cons.mp hnd).1 (he ▸ List.mem_map_of_mem DeviceCandidates.devId hinfo')
      exact ⟨i', hpres i' hi' hne, hid', ht', hub'⟩
    · exact (List.nodup_cons.mp hnd).2

/-- Any record in a helper array extended by `mapping_helper_add` is either
an old record or the new device's. -/
theorem mapping_helper_add_mem (mgr : MonitorManager) (maps : List DeviceCandidates)
    (d : InputDevice) (info : DeviceCandidates)
    (h : info ∈ mapping_helper_add mgr maps d) :
    info ∈ maps ∨ (info.devId = d.id ∧ info.dtype = d.dtype) := by
  unfold mapping_helper_add at h
  by_cases hp : helperPos maps (guess_candidates mgr d).2 ≥ maps.length
  · rw [if_pos hp] at h
    rcases List.mem_append.mp h with h | h
    · exact Or.inl h
    · rcases List.mem_cons.mp h with rfl | h
      · exact Or.inr ⟨rfl, rfl⟩
      · cases h
  · rw [if_neg hp] at h
    unfold insertAt at h
    rcases List.mem_append.mp h with h | h
    · exact Or.inl (List.mem_of_mem_take h)
    · rcases List.mem_cons.mp h with rfl | h
      · exact Or.inr ⟨rfl, rfl⟩
      · exact Or.inl (List.mem_of_mem_drop h)

/-- `mapping_helper_add` permutes the id column to a cons. -/
theorem mapping_helper_add_ids_perm (mgr : MonitorManager) (maps : List DeviceCandidates)
    (d : InputDevice) :
    List.Perm ((mapping_helper_add mgr maps d).map DeviceCandidates.devId)
      (d.id :: maps.map DeviceCandidates.devId) := by
  unfold mapping_helper_add
  by_cases hp : helperPos maps (guess_candidates mgr d).2 ≥ maps.length
  · rw [if_pos hp, List.map_append]
    exact List.perm_append_singleton _ _
  · rw [if_neg hp]
    unfold insertAt
    rw [List.map_append, List.map_cons]
    refine (List.perm_middle).trans ?_
    rw [← List.map_append, List.take_append_drop]
/-- Batch construction: every record comes from a listed input. -/
theorem batch_fold_mem (mgr : MonitorManager) (l : List InputInfo) :
    ∀ (maps0 : List DeviceCandidates)
      (info : DeviceCandidates),
      info ∈ l.foldl (fun maps i => mapping_helper_add mgr maps i.dev) maps0 →
      info ∈ maps0 ∨ ∃ i ∈ l, info.devId = i.dev.id ∧ info.dtype = i.dev.dtype := by
  induction l with
  | nil => intro maps0 info h; exact Or.inl h
  | cons x t ih =>
    intro maps0 info h
    rw [List.foldl_cons] at h
    rcases ih (mapping_helper_add mgr maps0 x.dev) info h with h2 | ⟨i, hi, h3⟩
    · rcases mapping_helper_add_mem mgr maps0 x.dev info h2 with h4 | h4
      · exact Or.inl h4
      · exact Or.inr ⟨x, List.mem_cons_self x t, h4⟩
    · exact Or.inr ⟨i, List.mem_cons_of_mem x hi, h3⟩

/-- Batch construction: the id column is a permutation of the devices'
ids joined with the seed's. -/
theorem batch_fold_ids_perm (mgr : MonitorManager) (l : List InputInfo) :
    ∀ maps0 : List DeviceCandidates,
      List.Perm ((l.foldl (fun maps i => mapping_helper_add mgr maps i.dev) maps0).map
          DeviceCandidates.devId)
        ((l.map fun i => i.dev.id) ++ maps0.map DeviceCandidates.devId) := by
  induction l with
  | nil => intro maps0; simp
  | cons x t ih =>
    intro maps0
    rw [List.foldl_cons]
    refine (ih (mapping_helper_add mgr maps0 x.dev)).trans ?_
    have h1 := mapping_helper_add_ids_perm mgr maps0 x.dev
    refine (List.Perm.append_left (t.map fun i => i.dev.id) h1).trans ?_
    rw [List.map_cons, List.cons_append]
    exact List.perm_middle

/-- The invariant is preserved by a single-device recompute of a known
unbound device. -/
theorem MapperInv_recalc_input (st : State) (hinv : MapperInv st) (i : InputInfo)
    (hi : i ∈ st.inputs) (hub : i.output = none) :
    MapperInv (mapper_recalculate_input st i.dev) := by
  unfold mapper_recalculate_input
  apply MapperInv_apply_fold _ st hinv
  · intro info hinfo
    rcases mapping_helper_add_mem st.mgr [] i.dev info hinfo with h | ⟨h1, h2⟩
    · cases h
    · exact ⟨i, hi, h1.symm, h2.symm, hub⟩
  · have hperm := mapping_helper_add_ids_perm st.mgr [] i.dev
    refine hperm.nodup_iff.mpr ?_
    simp

/-- The invariant is preserved by a full recompute when every device is
unbound (as after an output rebuild). -/
theorem MapperInv_recalc_candidates (st : State) (hinv : MapperInv st)
    (hall : ∀ i ∈ st.inputs, i.output = none) :
    MapperInv (mapper_recalculate_candidates st) := by
  unfold mapper_recalculate_candidates
  apply MapperInv_apply_fold _ st hinv
  · intro info hinfo
    rcases batch_fold_mem st.mgr st.inputs [] info hinfo with h | ⟨i, hi, h1, h2⟩
    · cases h
    · exact ⟨i, hi, h1.symm, h2.symm, hall i hi⟩
  · have hperm := batch_fold_ids_perm st.mgr st.inputs []
    rw [List.map_nil, List.append_nil] at hperm
    exact hperm.nodup_iff.mpr hinv.idsNodup

/-- The invariant is preserved by `meta_input_mapper_add_device`. -/
theorem MapperInv_add_device (st : State) (d : InputDevice) (hinv : MapperInv st) :
    MapperInv (meta_input_mapper_add_device st d) := by
  unfold meta_input_mapper_add_device
  by_cases hany : (st.inputs.any fun i => i.dev.id == d.id) = true
  · rw [if_pos hany]
    exact hinv
  · rw [if_neg hany]
    have hfresh : ∀ i ∈ st.inputs, i.dev.id ≠ d.id := by
      intro i hi
      have := List.any_eq_false.mp (Bool.of_not_eq_true hany) i hi
      simpa using this
    have hinv1 : MapperInv { st with inputs := st.inputs ++ [⟨d, none⟩] } := by
      refine ⟨?_, hinv.monNodup, hinv.maskEq, hinv.disj, ?_, ?_, hinv.entryIds⟩
      · dsimp only
        rw [List.map_append]
        refine List.nodup_append.mpr ⟨hinv.idsNodup, by simp, ?_⟩
        intro a ha hb
        obtain ⟨i, hi, rfl⟩ := List.mem_map.mp ha
        simp only [List.map_cons, List.map_nil, List.mem_singleton] at hb
        exact hfresh i hi hb
      · dsimp only
        intro j hj mid hm
        rcases List.mem_append.mp hj with hj | hj
        · obtain ⟨o, ho, hmon, hent⟩ := hinv.bound j hj mid hm
          exact ⟨o, ho, hmon, hent⟩
        · rcases List.mem_cons.mp hj with rfl | hj
          · cases hm
          · cases hj
      · dsimp only
        intro o ho e he
        obtain ⟨j, hj, h1, h2, h3⟩ := hinv.entries o ho e he
        exact ⟨j, List.mem_append_left _ hj, h1, h2, h3⟩
    have hmem : (⟨d, none⟩ : InputInfo) ∈ ({ st with inputs := st.inputs ++ [⟨d, none⟩] } : State).inputs :=
      List.mem_append_right _ (List.mem_singleton.mpr rfl)
    exact MapperInv_recalc_input _ hinv1 ⟨d, none⟩ hmem rfl

/-- The invariant is preserved by `mapper_output_info_remove_input` for an
input bound to `mid`. -/
theorem MapperInv_remove_input (st : State) (mid : Nat) (i : InputInfo)
    (hinv : MapperInv st) (hi : i ∈ st.inputs) (hb : i.output = some mid) :
    MapperInv (mapper_output_info_remove_input st mid i.dev.id) := by
  rw [remove_input_state st mid i hinv.idsNodup hi hb]
  refine ⟨?_, ?_, ?_, ?_, ?_, ?_, ?_⟩
  · dsimp only
    rw [setBinding_map_ids]
    exact hinv.idsNodup
  · dsimp only
    rw [updOutput_map_monitor st.outputs mid (delDev i.dev.id) (fun p => rfl)]
    exact hinv.monNodup
  · dsimp only
    intro o' ho'
    obtain ⟨o0, ho0, hform⟩ := of_mem_updOutput _ _ _ o' ho'
    by_cases hc : o0.monitor = mid
    · rw [if_pos hc] at hform
      rw [hform]
      rfl
    · rw [if_neg hc] at hform
      rw [hform]
      exact hinv.maskEq o0 ho0
  · dsimp only
    intro o' ho'
    obtain ⟨o0, ho0, hform⟩ := of_mem_updOutput _ _ _ o' ho'
    by_cases hc : o0.monitor = mid
    · rw [if_pos hc] at hform
      rw [hform]
      exact (hinv.disj o0 ho0).sublist (List.eraseP_sublist o0.devices)
    · rw [if_neg hc] at hform
      rw [hform]
      exact hinv.disj o0 ho0
  · dsimp only
    intro j' hj' mid' hout'
    obtain ⟨j, hj, hform⟩ := of_mem_setBinding _ _ _ j' hj'
    by_cases hc : j.dev.id = i.dev.id
    · rw [if_pos hc] at hform
      rw [hform] at hout'
      cases hout'
    · rw [if_neg hc] at hform
      rw [hform] at hout' ⊢
      obtain ⟨o2, ho2, hm2, hent2⟩ := hinv.bound j hj mid' hout'
      by_cases hc2 : o2.monitor = mid
      · refine ⟨delDev i.dev.id o2, ?_, hm2, ?_⟩
        · have hmem := mem_updOutput_of_mem st.outputs mid (delDev i.dev.id) o2 ho2
          rw [if_pos hc2] at hmem
          exact hmem
        · show (j.dev.id, j.dev.dtype) ∈ o2.devices.eraseP (fun e => e.1 == i.dev.id)
          exact (List.mem_eraseP_of_neg (by simp [hc])).mpr hent2
      · refine ⟨o2, ?_, hm2, hent2⟩
        have hmem := mem_updOutput_of_mem st.outputs mid (delDev i.dev.id) o2 ho2
        rw [if_neg hc2] at hmem
        exact hmem
  · dsimp only
    intro o' ho' e he
    obtain ⟨o0, ho0, hform⟩ := of_mem_updOutput _ _ _ o' ho'
    by_cases hc : o0.monitor = mid
    · rw [if_pos hc] at hform
      rw [hform] at he ⊢
      have hee : e ∈ o0.devices := List.mem_of_mem_eraseP he
      obtain ⟨j2, hj2, hid2, ht2, ho2⟩ := hinv.entries o0 ho0 e hee
      have hne : e.1 ≠ i.dev.id :=
        eraseP_id_gone o0.devices i.dev.id (hinv.entryIds o0 ho0) e he
      refine ⟨j2, mem_setBinding_of_ne _ _ _ j2 hj2 (by rw [hid2]; exact hne), hid2, ht2, ?_⟩
      exact ho2
    · rw [if_neg hc] at hform
      rw [hform] at he ⊢
      obtain ⟨j2, hj2, hid2, ht2, ho2⟩ := hinv.entries o0 ho0 e he
      have hne : j2.dev.id ≠ i.dev.id := by
        intro heq
        have hj2i : j2 = i :=
          eq_of_mem_nodup_keys st.inputs (fun x => x.dev.id) hinv.idsNodup j2 i hj2 hi heq
        rw [hj2i, hb] at ho2
        have : o0.monitor = mid := by
          injection ho2.symm
        exact hc this
      exact ⟨j2, mem_setBinding_of_ne _ _ _ j2 hj2 hne, hid2, ht2, ho2⟩
  · dsimp only
    intro o' ho'
    obtain ⟨o0, ho0, hform⟩ := of_mem_updOutput _ _ _ o' ho'
    by_cases hc : o0.monitor = mid
    · rw [if_pos hc] at hform
      rw [hform]
      exact (hinv.entryIds o0 ho0).sublist ((List.eraseP_sublist o0.devices).map Prod.fst)
    · rw [if_neg hc] at hform
      rw [hform]
      exact hinv.entryIds o0 ho0

/-- The invariant is preserved by dropping from the input table a device
that no output references. -/
theorem MapperInv_drop_input (st : State) (did : Nat) (hinv : MapperInv st)
    (hnot : ∀ o ∈ st.outputs, ∀ e ∈ o.devices, e.1 ≠ did) :
    MapperInv { st with inputs := st.inputs.filter fun j => j.dev.id != did } := by
  refine ⟨?_, hinv.monNodup, hinv.maskEq, hinv.disj, ?_, ?_, hinv.entryIds⟩
  · dsimp only
    have hsub : List.Sublist ((st.inputs.filter fun j => j.dev.id != did).map fun i => i.dev.id)
        (st.inputs.map fun i => i.dev.id) :=
      (List.filter_sublist st.inputs).map _
    exact hinv.idsNodup.sublist hsub
  · dsimp only
    intro j hj mid hm
    exact hinv.bound j (List.mem_of_mem_filter hj) mid hm
  · dsimp only
    intro o ho e he
    obtain ⟨j, hj, h1, h2, h3⟩ := hinv.entries o ho e he
    refine ⟨j, ?_, h1, h2, h3⟩
    refine List.mem_filter.mpr ⟨hj, ?_⟩
    have : j.dev.id ≠ did := by
      rw [h1]
      exact hnot o ho e he
    simpa using this

/-- The invariant is preserved by `meta_input_mapper_remove_device`. -/
theorem MapperInv_remove_device (st : State) (did : Nat) (hinv : MapperInv st) :
    MapperInv (meta_input_mapper_remove_device st did) := by
  unfold meta_input_mapper_remove_device
  rcases hfind : st.inputs.find? (fun i => i.dev.id == did) with _ | i
  · rw [hfind]
    exact hinv
  · rw [hfind]
    have hi : i ∈ st.inputs := List.mem_of_find?_eq_some hfind
    have hpid : i.dev.id = did := by
      simpa using List.find?_some hfind
    dsimp only
    rcases hout : i.output with _ | mid
    · dsimp only
      rw [← hpid]
      refine MapperInv_drop_input st i.dev.id hinv ?_
      exact no_entry_of_unbound st hinv i.dev.id i hi rfl hout
    · dsimp only
      rw [← hpid]
      have hinv1 := MapperInv_remove_input st mid i hinv hi hout
      rw [remove_input_state st mid i hinv.idsNodup hi hout] at hinv1 ⊢
      refine MapperInv_drop_input _ i.dev.id hinv1 ?_
      intro o ho e he
      dsimp only at ho
      obtain ⟨o0, ho0, hform⟩ := of_mem_updOutput _ _ _ o ho
      by_cases hc : o0.monitor = mid
      · rw [if_pos hc] at hform
        rw [hform] at he
        exact eraseP_id_gone o0.devices i.dev.id (hinv.entryIds o0 ho0) e he
      · rw [if_neg hc] at hform
        rw [hform] at he
        intro heq
        obtain ⟨j2, hj2, hid2, ht2, ho2⟩ := hinv.entries o0 ho0 e he
        have hj2i : j2 = i :=
          eq_of_mem_nodup_keys st.inputs (fun x => x.dev.id) hinv.idsNodup j2 i hj2 hi
            (by show j2.dev.id = i.dev.id; rw [hid2, heq])
        rw [hj2i, hout] at ho2
        have hmm : o0.monitor = mid := by
          injection ho2.symm
        exact hc hmm

/-- The image of a member with the updated id under `setBinding`. -/
theorem mem_setBinding_self (l : List InputInfo) (did : Nat) (out : Option Nat)
    (i : InputInfo) (hi : i ∈ l) (hid : i.dev.id = did) :
    ({ i with output := out } : InputInfo) ∈ setBinding l did out := by
  have hmem := List.mem_map_of_mem
    (fun j => if j.dev.id == did then { j with output := out } else j) hi
  rw [show (fun j => if j.dev.id == did then { j with output := out } else j) i
      = ({ i with output := out } : InputInfo) from by simp [hid]] at hmem
  exact hmem

/-- The invariant is preserved by rewriting inputs with any function that
keeps id, class and binding (such as a configuration update). -/
theorem MapperInv_map_inputs (st : State) (g : InputInfo → InputInfo) (hinv : MapperInv st)
    (hg : ∀ j, (g j).dev.id = j.dev.id ∧ (g j).dev.dtype = j.dev.dtype ∧
      (g j).output = j.output) :
    MapperInv { st with inputs := st.inputs.map g } := by
  refine ⟨?_, hinv.monNodup, hinv.maskEq, hinv.disj, ?_, ?_, hinv.entryIds⟩
  · dsimp only
    rw [map_inputs_ids st.inputs g (fun j => (hg j).1)]
    exact hinv.idsNodup
  · dsimp only
    intro j' hj' mid hm
    obtain ⟨j, hj, rfl⟩ := List.mem_map.mp hj'
    rw [(hg j).2.2] at hm
    obtain ⟨o, ho, hmon, hent⟩ := hinv.bound j hj mid hm
    refine ⟨o, ho, hmon, ?_⟩
    rw [(hg j).1, (hg j).2.1]
    exact hent
  · dsimp only
    intro o ho e he
    obtain ⟨j, hj, h1, h2, h3⟩ := hinv.entries o ho e he
    refine ⟨g j, List.mem_map_of_mem g hj, ?_, ?_, ?_⟩
    · rw [(hg j).1]; exact h1
    · rw [(hg j).2.1]; exact h2
    · rw [(hg j).2.2]; exact h3

/-- The invariant is preserved by a configuration change. -/
theorem MapperInv_settings_changed (st : State) (did : Nat) (cfg : List String)
    (hinv : MapperInv st) : MapperInv (settings_output_changed st did cfg) := by
  unfold settings_output_changed
  rcases hfind : st.inputs.find? (fun i => i.dev.id == did) with _ | i
  · rw [hfind]
    exact hinv
  · rw [hfind]
    have hi : i ∈ st.inputs := List.mem_of_find?_eq_some hfind
    have hpid : i.dev.id = did := by
      simpa using List.find?_some hfind
    dsimp only
    have hg : ∀ j : InputInfo,
        ((if j.dev.id == did then { j with dev := { j.dev with cfg := cfg } } else j) :
          InputInfo).dev.id = j.dev.id ∧
        ((if j.dev.id == did then { j with dev := { j.dev with cfg := cfg } } else j) :
          InputInfo).dev.dtype = j.dev.dtype ∧
        ((if j.dev.id == did then { j with dev := { j.dev with cfg := cfg } } else j) :
          InputInfo).output = j.output := by
      intro j
      by_cases h : (j.dev.id == did) = true <;> simp [h]
    have hinv1 := MapperInv_map_inputs st _ hinv hg
    have hi1 : ({ i with dev := { i.dev with cfg := cfg } } : InputInfo) ∈
        (st.inputs.map fun j =>
          if j.dev.id == did then { j with dev := { j.dev with cfg := cfg } } else j) := by
      have hmem := List.mem_map_of_mem
        (fun j => if j.dev.id == did then { j with dev := { j.dev with cfg := cfg } } else j) hi
      rw [show (fun j : InputInfo =>
          if j.dev.id == did then { j with dev := { j.dev with cfg := cfg } } else j) i
          = ({ i with dev := { i.dev with cfg := cfg } } : InputInfo) from by simp [hpid]]
        at hmem
      exact hmem
    rcases hout : i.output with _ | mid
    · dsimp only
      have hids1 := hinv1.idsNodup
      have hfind2 := find?_eq_of_mem_nodup _ (fun j => j.dev.id) hids1
        ({ i with dev := { i.dev with cfg := cfg } } : InputInfo) hi1 did hpid
      rw [hfind2]
      exact MapperInv_recalc_input _ hinv1
        ({ i with dev := { i.dev with cfg := cfg } } : InputInfo) hi1 hout
    · dsimp only
      have hb1 : ({ i with dev := { i.dev with cfg := cfg } } : InputInfo).output
          = some mid := hout
      have hinv2 := MapperInv_remove_input _ mid
        ({ i with dev := { i.dev with cfg := cfg } } : InputInfo) hinv1 hi1 hb1
      have hchr := remove_input_state _ mid
        ({ i with dev := { i.dev with cfg := cfg } } : InputInfo) hinv1.idsNodup hi1 hb1
      rw [show ({ i with dev := { i.dev with cfg := cfg } } : InputInfo).dev.id = did
        from hpid] at hinv2 hchr
      rw [hchr] at hinv2 ⊢
      have hi2 : ({ i with dev := { i.dev with cfg := cfg }, output := none } : InputInfo) ∈
          setBinding ((st.inputs.map fun j =>
            if j.dev.id == did then { j with dev := { j.dev with cfg := cfg } } else j)) did
            none := by
        exact mem_setBinding_self _ did none
          ({ i with dev := { i.dev with cfg := cfg } } : InputInfo) hi1 hpid
      have hfind2 := find?_eq_of_mem_nodup _ (fun j => j.dev.id) hinv2.idsNodup
        ({ i with dev := { i.dev with cfg := cfg }, output := none } : InputInfo)
        hi2 did hpid
      rw [hfind2]
      exact MapperInv_recalc_input _ hinv2
        ({ i with dev := { i.dev with cfg := cfg }, output := none } : InputInfo) hi2 rfl

/-- Unbinding every device of an entry list (the loop of
`mapper_output_info_clear_inputs`) rewrites exactly the listed inputs'
bindings to none, touching nothing else but the event trace. -/
theorem fold_unbind (l : List (Nat × DeviceType)) :
    ∀ s : State, (s.inputs.map fun i => i.dev.id).Nodup →
    ∃ ev, l.foldl (fun s e => mapper_input_info_set_output s e.1 none) s
      = { s with
          inputs := s.inputs.map fun i =>
            if i.dev.id ∈ l.map Prod.fst then { i with output := none } else i
          events := ev } := by
  induction l with
  | nil =>
    intro s _
    refine ⟨s.events, ?_⟩
    simp only [List.foldl_nil, List.map_nil]
    have hmap : (s.inputs.map fun i =>
        if i.dev.id ∈ ([] : List Nat) then { i with output := none } else i) = s.inputs := by
      refine (List.map_congr_left ?_).trans (List.map_id s.inputs)
      intro a _
      simp
    rw [hmap]
  | cons e t ih =>
    intro s hids
    rw [List.foldl_cons]
    rcases hf : s.inputs.find? (fun j => j.dev.id == e.1) with _ | i0
    · have hs' : mapper_input_info_set_output s e.1 none = s := by
        unfold mapper_input_info_set_output
        rw [hf]
      rw [hs']
      obtain ⟨ev, hev⟩ := ih s hids
      refine ⟨ev, hev.trans ?_⟩
      have hnone : ∀ a ∈ s.inputs, a.dev.id ≠ e.1 := by
        intro a ha
        have hh := List.find?_eq_none.mp hf a ha
        simpa using hh
      have hmap : (s.inputs.map fun i =>
          if i.dev.id ∈ t.map Prod.fst then { i with output := none } else i)
          = (s.inputs.map fun i =>
          if i.dev.id ∈ (e :: t).map Prod.fst then { i with output := none } else i) := by
        apply List.map_congr_left
        intro a ha
        have hne := hnone a ha
        by_cases hm : a.dev.id ∈ t.map Prod.fst <;> simp [hm, hne]
      rw [hmap]
    · have hi0 : i0 ∈ s.inputs := List.mem_of_find?_eq_some hf
      have hpid : i0.dev.id = e.1 := by
        simpa using List.find?_some hf
      rcases hi0out : i0.output with _ | mid0
      · have hs' : mapper_input_info_set_output s e.1 none = s := by
          unfold mapper_input_info_set_output
          rw [hf]
          dsimp only
          rw [if_pos (by rw [hi0out]; rfl)]
        rw [hs']
        obtain ⟨ev, hev⟩ := ih s hids
        refine ⟨ev, hev.trans ?_⟩
        have hmap : (s.inputs.map fun i =>
            if i.dev.id ∈ t.map Prod.fst then { i with output := none } else i)
            = (s.inputs.map fun i =>
            if i.dev.id ∈ (e :: t).map Prod.fst then { i with output := none } else i) := by
          apply List.map_congr_left
          intro a ha
          by_cases he1 : a.dev.id = e.1
          · have hai0 : a = i0 :=
              eq_of_mem_nodup_keys s.inputs (fun x => x.dev.id) hids a i0 ha hi0
                (by show a.dev.id = i0.dev.id; rw [he1, hpid])
            have haout : a.output = none := by
              rw [hai0]
              exact hi0out
            have hanone : ({ a with output := none } : InputInfo) = a := by
              cases a
              simp_all
            by_cases hm : a.dev.id ∈ t.map Prod.fst <;> simp [hm, he1, hanone]
          · by_cases hm : a.dev.id ∈ t.map Prod.fst <;> simp [hm, he1]
        rw [hmap]
      · have hs' := set_output_update s e.1 none i0 hf (by rw [hi0out]; simp)
        rw [hs']
        have hids' : ((setBinding s.inputs e.1 none).map fun i => i.dev.id).Nodup := by
          rw [setBinding_map_ids]
          exact hids
        obtain ⟨ev, hev⟩ := ih { s with
          inputs := setBinding s.inputs e.1 none
          events := s.events ++ [Event.mapped e.1 none, Event.aspect e.1 none] } hids'
        refine ⟨ev, hev.trans ?_⟩
        have hmap : ((setBinding s.inputs e.1 none).map fun i =>
            if i.dev.id ∈ t.map Prod.fst then { i with output := none } else i)
            = (s.inputs.map fun i =>
            if i.dev.id ∈ (e :: t).map Prod.fst then { i with output := none } else i) := by
          rw [setBinding, List.map_map]
          apply List.map_congr_left
          intro a _
          by_cases he1 : a.dev.id = e.1 <;> by_cases hm : a.dev.id ∈ t.map Prod.fst <;>
            simp [Function.comp, he1, hm]
        rw [hmap]

/-- Updating one output leaves lookups of other monitors untouched. -/
theorem find?_updOutput_ne (outs : List OutputInfo) (mid : Nat)
    (f : OutputInfo → OutputInfo) (hf : ∀ o, (f o).monitor = o.monitor)
    (mid' : Nat) (hne : mid' ≠ mid) :
    (updOutput outs mid f).find? (fun p => p.monitor == mid')
      = outs.find? (fun p => p.monitor == mid') := by
  unfold updOutput
  rw [List.find?_map]
  have hpred : ((fun p : OutputInfo => p.monitor == mid') ∘
      fun o => if o.monitor == mid then f o else o)
      = fun p : OutputInfo => p.monitor == mid' := by
    funext o
    by_cases hc : o.monitor = mid <;> simp [hc, hf]
  rw [hpred]
  rcases hfo : outs.find? (fun p => p.monitor == mid') with _ | o0
  · rw [hfo]
    rfl
  · rw [hfo]
    have hmon : o0.monitor = mid' := by
      simpa using List.find?_some hfo
    simp [hmon, hne]

/-- Explicit form of `mapper_output_info_clear_inputs` when the output is
present. -/
theorem clear_inputs_char (s : State) (mid : Nat)
    (hids : (s.inputs.map fun i => i.dev.id).Nodup)
    (o : OutputInfo) (hfo : s.outputs.find? (fun p => p.monitor == mid) = some o) :
    ∃ ev, mapper_output_info_clear_inputs s mid =
      { s with
        inputs := s.inputs.map fun i =>
          if i.dev.id ∈ o.devices.map Prod.fst then { i with output := none } else i
        outputs := updOutput s.outputs mid fun p => { p with devices := [], attachedCaps := 0 }
        events := ev } := by
  unfold mapper_output_info_clear_inputs
  rw [hfo]
  dsimp only
  obtain ⟨ev, hev⟩ := fold_unbind o.devices s hids
  rw [hev]
  exact ⟨ev, rfl⟩

/-- An entry id of a listed output is in the flattened union of entry
ids. -/
theorem mem_union_of_entry (ms : List OutputInfo) (o : OutputInfo) (ho : o ∈ ms)
    (e : Nat × DeviceType) (he : e ∈ o.devices) :
    e.1 ∈ ms.foldr (fun p acc => p.devices.map Prod.fst ++ acc) [] := by
  induction ms with
  | nil => cases ho
  | cons x t ih =>
    rw [List.foldr_cons]
    rcases List.mem_cons.mp ho with rfl | ho
    · exact List.mem_append_left _ (List.mem_map_of_mem Prod.fst he)
    · exact List.mem_append_right _ (ih ho)

/-- Clearing a list of present outputs unbinds exactly the inputs listed
in their device lists. -/
theorem clear_fold_props (ms : List OutputInfo) :
    ∀ s : State, (s.inputs.map fun i => i.dev.id).Nodup →
    (ms.map OutputInfo.monitor).Nodup →
    (∀ o ∈ ms, s.outputs.find? (fun p => p.monitor == o.monitor) = some o) →
    ∃ ev outs,
      ms.foldl (fun s o => mapper_output_info_clear_inputs s o.monitor) s
        = { s with
            inputs := s.inputs.map fun i =>
              if i.dev.id ∈ ms.foldr (fun p acc => p.devices.map Prod.fst ++ acc) [] then
                { i with output := none } else i
            outputs := outs
            events := ev } := by
  induction ms with
  | nil =>
    intro s _ _ _
    refine ⟨s.events, s.outputs, ?_⟩
    simp only [List.foldl_nil, List.foldr_nil]
    have hmap : (s.inputs.map fun i =>
        if i.dev.id ∈ ([] : List Nat) then { i with output := none } else i) = s.inputs := by
      refine (List.map_congr_left ?_).trans (List.map_id s.inputs)
      intro a _
      simp
    rw [hmap]
  | cons o t ih =>
    intro s hids hmons hfinds
    rw [List.foldl_cons]
    obtain ⟨ev1, hclear⟩ := clear_inputs_char s o.monitor hids o
      (hfinds o (List.mem_cons_self o t))
    rw [hclear]
    have hids1 : ((s.inputs.map fun i =>
        if i.dev.id ∈ o.devices.map Prod.fst then { i with output := none } else i).map
          fun i => i.dev.id).Nodup := by
      rw [map_inputs_ids _ _ (fun j => by by_cases h : j.dev.id ∈ o.devices.map Prod.fst <;>
        simp [h])]
      exact hids
    have hfinds1 : ∀ o' ∈ t,
        (updOutput s.outputs o.monitor fun p =>
          { p with devices := [], attachedCaps := 0 }).find?
            (fun p => p.monitor == o'.monitor) = some o' := by
      intro o' ho'
      have hneq : o'.monitor ≠ o.monitor := by
        intro he
        exact (List.nodup_cons.mp hmons).1
          (he ▸ List.mem_map_of_mem OutputInfo.monitor ho')
      rw [find?_updOutput_ne s.outputs o.monitor
        (fun p => { p with devices := ([] : List (Nat × DeviceType)), attachedCaps := 0 })
        (fun p => rfl) o'.monitor hneq]
      exact hfinds o' (List.mem_cons_of_mem o ho')
    obtain ⟨ev2, outs2, hrest⟩ := ih { s with
        inputs := s.inputs.map fun i =>
          if i.dev.id ∈ o.devices.map Prod.fst then { i with output := none } else i
        outputs := updOutput s.outputs o.monitor fun p =>
          { p with devices := [], attachedCaps := 0 }
        events := ev1 } hids1 (List.nodup_cons.mp hmons).2 hfinds1
    refine ⟨ev2, outs2, hrest.trans ?_⟩
    have hmap : ((s.inputs.map fun i =>
        if i.dev.id ∈ o.devices.map Prod.fst then { i with output := none } else i).map
          fun i =>
            if i.dev.id ∈ t.foldr (fun p acc => p.devices.map Prod.fst ++ acc) [] then
              { i with output := none } else i)
        = (s.inputs.map fun i =>
            if i.dev.id ∈ (o :: t).foldr (fun p acc => p.devices.map Prod.fst ++ acc) [] then
              { i with output := none } else i) := by
      rw [List.map_map]
      apply List.map_congr_left
      intro a _
      rw [List.foldr_cons]
      by_cases h1 : a.dev.id ∈ o.devices.map Prod.fst <;>
        by_cases h2 : a.dev.id ∈ t.foldr (fun p acc => p.devices.map Prod.fst ++ acc) [] <;>
          simp [Function.comp, h1, h2]
    rw [hmap]

/-- The invariant is preserved by a monitor-topology change with distinct
logical monitors. -/
theorem MapperInv_update_outputs (st : State) (newMgr : MonitorManager)
    (hinv : MapperInv st) (hnd : newMgr.logicalMonitors.Nodup) :
    MapperInv (mapper_update_outputs st newMgr) := by
  unfold mapper_update_outputs
  dsimp only
  have hfinds : ∀ o ∈ st.outputs,
      st.outputs.find? (fun p => p.monitor == o.monitor) = some o := by
    intro o ho
    exact find?_eq_of_mem_nodup st.outputs OutputInfo.monitor hinv.monNodup o ho _ rfl
  obtain ⟨ev, outs, hfold⟩ := clear_fold_props st.outputs { st with mgr := newMgr }
    hinv.idsNodup hinv.monNodup hfinds
  rw [hfold]
  set newInputs := st.inputs.map fun i =>
    if i.dev.id ∈ st.outputs.foldr (fun p acc => p.devices.map Prod.fst ++ acc) [] then
      { i with output := none } else i with hni
  have hall : ∀ j ∈ newInputs, j.output = none := by
    intro j hj
    rw [hni] at hj
    obtain ⟨i, hi, rfl⟩ := List.mem_map.mp hj
    by_cases hc : i.dev.id ∈ st.outputs.foldr (fun p acc => p.devices.map Prod.fst ++ acc) []
    · rw [if_pos hc]
    · rw [if_neg hc]
      rcases hout : i.output with _ | mid
      · rfl
      · obtain ⟨o, ho, hmon, hent⟩ := hinv.bound i hi mid hout
        exact absurd (mem_union_of_entry st.outputs o ho _ hent) hc
  have hids : (newInputs.map fun i => i.dev.id).Nodup := by
    rw [hni, map_inputs_ids _ _ (fun j => by
      by_cases h : j.dev.id ∈ st.outputs.foldr (fun p acc => p.devices.map Prod.fst ++ acc) []
        <;> simp [h])]
    exact hinv.idsNodup
  apply MapperInv_recalc_candidates
  · refine ⟨hids, ?_, ?_, ?_, ?_, ?_, ?_⟩
    · dsimp only
      have hmm : (newMgr.logicalMonitors.map fun mid =>
          (⟨mid, [], 0⟩ : OutputInfo)).map OutputInfo.monitor = newMgr.logicalMonitors := by
        rw [List.map_map]
        exact List.map_id newMgr.logicalMonitors
      rw [hmm]
      exact hnd
    · dsimp only
      intro o ho
      obtain ⟨mid, _, rfl⟩ := List.mem_map.mp ho
      rfl
    · dsimp only
      intro o ho
      obtain ⟨mid, _, rfl⟩ := List.mem_map.mp ho
      exact List.Pairwise.nil
    · dsimp only
      intro j hj mid hm
      rw [hall j hj] at hm
      cases hm
    · dsimp only
      intro o ho e he
      obtain ⟨mid, _, rfl⟩ := List.mem_map.mp ho
      cases he
    · dsimp only
      intro o ho
      obtain ⟨mid, _, rfl⟩ := List.mem_map.mp ho
      exact List.nodup_nil
  · intro j hj
    exact hall j hj

/-- The invariant is preserved by a power-save mode change (only the
power field and the trace change). -/
theorem MapperInv_power (st : State) (pm : PowerMode) (hinv : MapperInv st) :
    MapperInv (power_save_mode_changed st pm) := by
  refine MapperInv_transfer st _ hinv ?_ ?_
  · unfold power_save_mode_changed
    dsimp only
    split
    · rfl
    · split
      · rfl
      · rfl
  · unfold power_save_mode_changed
    dsimp only
    split
    · rfl
    · split
      · rfl
      · rfl

/-- The freshly constructed mapper satisfies the invariant. -/
theorem MapperInv_start : MapperInv State.start := by
  refine ⟨?_, ?_, ?_, ?_, ?_, ?_, ?_⟩
  · exact List.nodup_nil
  · exact List.nodup_nil
  · intro o ho
    cases ho
  · intro o ho
    cases ho
  · intro i hi
    cases hi
  · intro o ho
    cases ho
  · intro o ho
    cases ho

/-- Every reachable state of the mapper satisfies the invariant. -/
theorem MapperInv_reachable (st : State) (h : Reachable st) : MapperInv st := by
  induction h with
  | start => exact MapperInv_start
  | add st d _ ih => exact MapperInv_add_device st d ih
  | remove st did _ ih => exact MapperInv_remove_device st did ih
  | monitors st mgr hnd _ ih => exact MapperInv_update_outputs st mgr ih hnd
  | config st did cfg _ ih => exact MapperInv_settings_changed st did cfg ih
  | power st pm _ ih => exact MapperInv_power st pm ih

/-- C4: in every state reachable by the public operations (device add and
remove, topology change, configuration change, power change — each of
which may trigger a recompute), every output's attached capability mask
equals the OR of its attached devices' capabilities, every bound device's
capability bits are contained in its output's mask, and no two devices
attached to the same output share a capability bit. -/
theorem C4_capability_invariants (st : State) (hre : Reachable st) :
    (∀ o ∈ st.outputs, o.attachedCaps = orCaps o.devices) ∧
    (∀ i ∈ st.inputs, ∀ mid, i.output = some mid →
      ∃ o ∈ st.outputs, o.monitor = mid ∧
        mapper_input_info_get_caps i.dev.dtype &&& o.attachedCaps
          = mapper_input_info_get_caps i.dev.dtype) ∧
    (∀ o ∈ st.outputs, o.devices.Pairwise fun a b =>
      mapper_input_info_get_caps a.2 &&& mapper_input_info_get_caps b.2 = 0) := by
  have hinv := MapperInv_reachable st hre
  refine ⟨hinv.maskEq, ?_, hinv.disj⟩
  intro i hi mid hout
  obtain ⟨o, ho, hmon, hent⟩ := hinv.bound i hi mid hout
  refine ⟨o, ho, hmon, ?_⟩
  rw [hinv.maskEq o ho]
  exact caps_mem_orCaps o.devices (i.dev.id, i.dev.dtype) hent

/-- C4 witness: the invariants hold in the concrete reachable state with
the touchscreen bound to the laptop panel. -/
theorem C4_capability_invariants_witness :
    (∀ o ∈ stBound.outputs, o.attachedCaps = orCaps o.devices) ∧
    (∀ i ∈ stBound.inputs, ∀ mid, i.output = some mid →
      ∃ o ∈ stBound.outputs, o.monitor = mid ∧
        mapper_input_info_get_caps i.dev.dtype &&& o.attachedCaps
          = mapper_input_info_get_caps i.dev.dtype) ∧
    (∀ o ∈ stBound.outputs, o.devices.Pairwise fun a b =>
      mapper_input_info_get_caps a.2 &&& mapper_input_info_get_caps b.2 = 0) :=
  C4_capability_invariants stBound
    (Reachable.add _ devTouch
      (Reachable.monitors State.start mgrPanel (by decide) Reachable.start))
